import Mathlib

/-!
Shallow embedding of the query pipeline of the NASA_MSG repository
(backend/rag/query_retriever.py, query_pipeline.py, query_reformer.py,
query_cli.py, query_figure_utils.py and backend/services/rag_service.py),
together with proofs about the embedded functions.

Modelling conventions:
* Python `str` is modelled by `String` / `List Char`; `str.strip()`,
  `str.upper()`, `re` character classes are modelled over Unicode code
  points exactly as the corresponding Lean `Char` predicates
  (`Char.isWhitespace`, `Char.isDigit`, ...), which agree with Python on
  the ASCII range exercised by the code.
* Python float arithmetic in `reciprocal_rank_fusion` is modelled over `ℚ`:
  the RRF scores `1/(k + rank + 1)` and their sums are the exact quantities
  the algorithm is specified with.
* Python `dict` is modelled either by an insertion-ordered association list
  (when the code iterates over the dict, as for the RRF `scores` dict) or by
  a lookup function updated pointwise (when the code only ever does
  `d[k] = v` / `d.get(k)`, as for `by_id` and the figure index).
* A fallible external call (an LLM/generation-service invocation) is
  modelled as an `Except String` value supplied as an input: `.ok s` is a
  successful response with content `s`, `.error e` is a raised exception
  with message `e`.  Code that the source wraps in `try/except` maps the
  `.error` case to the documented fallback; code outside any `try` block
  propagates it as `Except.error`.
-/

/-! ### Character-level helper lemmas -/

theorem uint32_le_iff (x y : UInt32) : x ≤ y ↔ x.toNat ≤ y.toNat := by
  rw [UInt32.le_def]
  exact Fin.le_def

theorem char_isDigit_iff (d : Char) : d.isDigit = true ↔ 48 ≤ d.toNat ∧ d.toNat ≤ 57 := by
  simp only [Char.isDigit, ge_iff_le, Bool.and_eq_true, decide_eq_true_eq]
  rw [uint32_le_iff, uint32_le_iff]
  have h48 : (48 : UInt32).toNat = 48 := rfl
  have h57 : (57 : UInt32).toNat = 57 := rfl
  rw [h48, h57]
  rfl

theorem char_ofNatAux_toNat (n : Nat) (h : n.isValidChar) : (Char.ofNatAux n h).toNat = n := by
  simp [Char.ofNatAux, Char.toNat, UInt32.toNat, BitVec.toNat_ofNatLt]

theorem toUpper_isDigit (c : Char) : (c.toUpper).isDigit = c.isDigit := by
  rw [Bool.eq_iff_iff]
  rw [char_isDigit_iff, char_isDigit_iff]
  simp only [Char.toUpper]
  split
  · next hn =>
      obtain ⟨h1, h2⟩ := hn
      have hc97 : 97 ≤ c.toNat := h1
      have hc122 : c.toNat ≤ 122 := h2
      have hv : (c.toNat - 32).isValidChar := by
        left
        omega
      rw [Char.ofNat]
      simp only [hv, dif_pos]
      rw [char_ofNatAux_toNat]
      omega
  · rfl

theorem toUpper_of_isDigit (c : Char) (h : c.isDigit = true) : c.toUpper = c := by
  have := (char_isDigit_iff c).mp h
  simp only [Char.toUpper]
  rw [if_neg]
  omega

theorem char_isWhitespace_toNat (d : Char) (h : d.isWhitespace = true) :
    d.toNat = 32 ∨ d.toNat = 9 ∨ d.toNat = 13 ∨ d.toNat = 10 := by
  simp only [Char.isWhitespace, Bool.or_eq_true, decide_eq_true_eq] at h
  rcases h with ((h | h) | h) | h
  · exact Or.inl (congrArg Char.toNat h)
  · exact Or.inr (Or.inl (congrArg Char.toNat h))
  · exact Or.inr (Or.inr (Or.inl (congrArg Char.toNat h)))
  · exact Or.inr (Or.inr (Or.inr (congrArg Char.toNat h)))

theorem isDigit_not_ws (c : Char) (h : c.isDigit = true) : c.isWhitespace = false := by
  by_contra hb
  have hw : c.isWhitespace = true := by
    revert hb
    cases c.isWhitespace <;> simp
  have := char_isWhitespace_toNat c hw
  have := (char_isDigit_iff c).mp h
  omega

/-! ### Data model

`DocMeta` models the metadata dict of a retrieved langchain `Document`,
restricted to the keys the embedded code consults.  An `Option` field is
`none` exactly when the key is absent from the dict. -/

structure DocMeta where
  id : Option String
  pmcid : Option String
  title : Option String
  url : Option String
  section_title : Option String
  type : Option String
  figure_label : Option String
  figure_caption : Option String
  figure_tileshop : Option String
  figure_image_urls : List String
deriving DecidableEq, Repr

/-- Metadata dict with only `id` / `pmcid` set (the keys RRF identity uses). -/
def mkMeta (i p : Option String) : DocMeta :=
  ⟨i, p, none, none, none, none, none, none, none, []⟩

/-- A langchain `Document`: `page_content` plus its metadata dict. -/
structure Document where
  page_content : String
  metadata : DocMeta
deriving DecidableEq, Repr

/-! ### `reciprocal_rank_fusion` (backend/rag/query_retriever.py, lines 125-152)

All call sites use the default `doc_id_key = "id"`, which is inlined here:
`doc_key` reads `metadata["id"]` when present and otherwise builds the
`f"{pmcid}::{cid}"` composite from `metadata.get("pmcid", "")` and
`metadata.get("id", "")`. -/

def doc_key (d : Document) : String :=
  match d.metadata.id with
  | some v => v
  | none => (d.metadata.pmcid.getD "") ++ "::" ++ (d.metadata.id.getD "")

/-- `scores[key] = scores.get(key, 0.0) + v` on an insertion-ordered dict:
an existing entry is updated in place, a new key is appended at the end. -/
def insertScore : List (String × ℚ) → String → ℚ → List (String × ℚ)
  | [], key, v => [(key, v)]
  | (k', v') :: t, key, v =>
      if k' = key then (k', v' + v) :: t else (k', v') :: insertScore t key v

/-- `by_id[key] = d`: the dict is only ever read back via `by_id[k]`,
so it is modelled as a lookup function updated pointwise. -/
def insertDoc (m : String → Option Document) (key : String) (d : Document) :
    String → Option Document :=
  fun k => if k = key then some d else m k

/-- The state of the two dicts built by the RRF loop. -/
structure RRFState where
  scores : List (String × ℚ)
  by_id : String → Option Document

/-- One step of the inner loop of `reciprocal_rank_fusion`:
`by_id[key] = d; scores[key] += 1.0 / (k + rank + 1.0)`. -/
def rrfStep (k : ℚ) (st : RRFState) (p : Nat × Document) : RRFState :=
  let key := doc_key p.2
  { scores := insertScore st.scores key (1 / (k + (p.1 : ℚ) + 1)),
    by_id := insertDoc st.by_id key p.2 }

/-- `for rank, d in enumerate(ranking): ...` -/
def rrfAddRanking (k : ℚ) (st : RRFState) (ranking : List Document) : RRFState :=
  ranking.enum.foldl (rrfStep k) st

/-- The two dicts after the full double loop of `reciprocal_rank_fusion`. -/
def rrfState (k : ℚ) (rankings : List (List Document)) : RRFState :=
  rankings.foldl (rrfAddRanking k) ⟨[], fun _ => none⟩

/-- Stable descending insertion: `x` is placed before the first element
whose score does not exceed `x`'s.  `sortDesc` below is therefore *the*
stable descending sort by score, which is what Python's
`sorted(scores.items(), key=lambda kv: kv[1], reverse=True)` computes
(CPython's sort is stable, also with `reverse=True`). -/
def sortInsert (x : String × ℚ) : List (String × ℚ) → List (String × ℚ)
  | [] => [x]
  | y :: t => if y.2 ≤ x.2 then x :: y :: t else y :: sortInsert x t

/-- Stable sort, descending by score. -/
def sortDesc (l : List (String × ℚ)) : List (String × ℚ) :=
  l.foldr sortInsert []

/-- `ordered = sorted(scores.items(), key=..., reverse=True)`. -/
def rrfOrdered (k : ℚ) (rankings : List (List Document)) : List (String × ℚ) :=
  sortDesc (rrfState k rankings).scores

/-- `reciprocal_rank_fusion(rankings, k, top_k)`; `fused = [by_id[k] for
k, _ in ordered[:top_k]]` (every key of `scores` is also a key of `by_id`,
so the `filterMap` lookup never actually drops an entry). -/
def reciprocal_rank_fusion (rankings : List (List Document)) (k : ℚ) (top_k : Nat) :
    List Document :=
  ((rrfOrdered k rankings).take top_k).filterMap
    (fun p => (rrfState k rankings).by_id p.1)

/-- The score the RRF `scores` dict assigns to `key` (`0` when absent). -/
def scoreOf (l : List (String × ℚ)) (key : String) : ℚ :=
  ((l.filter (fun p => p.1 = key)).map Prod.snd).sum

/-- Specification-side score contribution of one ranking to `key`:
the sum of `1/(k + r + 1)` over the zero-based ranks `r` at which a
document with identity `key` appears in the ranking. -/
def rrfContribution (k : ℚ) (key : String) (ranking : List Document) : ℚ :=
  ((ranking.enum.filter (fun p => doc_key p.2 = key)).map
    (fun p => 1 / (k + (p.1 : ℚ) + 1))).sum

/-- Specification-side fused score of `key`: summed over all rankings. -/
def rrfScore (k : ℚ) (key : String) (rankings : List (List Document)) : ℚ :=
  (rankings.map (rrfContribution k key)).sum

/-- First-discovery order of document identities across the ranking list:
keys already seen are skipped, new keys are emitted in encounter order. -/
def firstSeenFrom (seen : List String) : List String → List String
  | [] => []
  | x :: t => if x ∈ seen then firstSeenFrom seen t else x :: firstSeenFrom (x :: seen) t

/-- Number of distinct document identities occurring in the rankings. -/
def distinctDocCount (rankings : List (List Document)) : Nat :=
  ((rankings.flatten.map doc_key).dedup).length

/-! ### Lemmas about the RRF scores dict -/

theorem scoreOf_nil (key : String) : scoreOf [] key = 0 := rfl

theorem scoreOf_cons (p : String × ℚ) (t : List (String × ℚ)) (key : String) :
    scoreOf (p :: t) key = (if p.1 = key then p.2 else 0) + scoreOf t key := by
  by_cases h : p.1 = key <;> simp [scoreOf, List.filter_cons, h]

theorem scoreOf_insertScore (l : List (String × ℚ)) (key key' : String) (v : ℚ) :
    scoreOf (insertScore l key v) key' =
      scoreOf l key' + (if key = key' then v else 0) := by
  induction l with
  | nil =>
      by_cases h : key = key' <;> simp [insertScore, scoreOf, List.filter_cons, h]
  | cons p t ih =>
      obtain ⟨k0, v0⟩ := p
      by_cases hk : k0 = key
      · subst hk
        have hins : insertScore ((k0, v0) :: t) k0 v = (k0, v0 + v) :: t := by
          simp [insertScore]
        rw [hins, scoreOf_cons, scoreOf_cons]
        by_cases h : k0 = key' <;> simp [h] <;> ring
      · simp only [insertScore, if_neg hk]
        rw [scoreOf_cons, scoreOf_cons, ih]
        ring

theorem scoreOf_foldl_rrfStep (k : ℚ) (ps : List (Nat × Document)) (st : RRFState)
    (key : String) :
    scoreOf ((ps.foldl (rrfStep k) st).scores) key =
      scoreOf st.scores key +
        ((ps.filter (fun p => doc_key p.2 = key)).map
          (fun p => 1 / (k + (p.1 : ℚ) + 1))).sum := by
  induction ps generalizing st with
  | nil => simp
  | cons p t ih =>
      simp only [List.foldl_cons, List.filter_cons]
      rw [ih]
      have hstep : scoreOf ((rrfStep k st p).scores) key =
          scoreOf st.scores key + (if doc_key p.2 = key then 1 / (k + (p.1 : ℚ) + 1) else 0) := by
        simp [rrfStep, scoreOf_insertScore]
      by_cases h : doc_key p.2 = key
      · simp only [h, if_pos rfl] at hstep
        simp only [h, decide_True, if_pos, List.map_cons, List.sum_cons, hstep]
        ring
      · simp only [h, if_neg h] at hstep
        simp only [h, decide_False, hstep]
        simp

theorem scoreOf_foldl_rrfAddRanking (k : ℚ) (rankings : List (List Document))
    (st : RRFState) (key : String) :
    scoreOf ((rankings.foldl (rrfAddRanking k) st).scores) key =
      scoreOf st.scores key + (rankings.map (rrfContribution k key)).sum := by
  induction rankings generalizing st with
  | nil => simp
  | cons r t ih =>
      simp only [List.foldl_cons, List.map_cons, List.sum_cons]
      rw [ih]
      have : scoreOf ((rrfAddRanking k st r).scores) key =
          scoreOf st.scores key + rrfContribution k key r := by
        rw [rrfAddRanking, scoreOf_foldl_rrfStep]
        rfl
      rw [this]
      ring

theorem scoreOf_rrfState (k : ℚ) (rankings : List (List Document)) (key : String) :
    scoreOf (rrfState k rankings).scores key = rrfScore k key rankings := by
  rw [rrfState, scoreOf_foldl_rrfAddRanking, rrfScore]
  simp [scoreOf]

/-! ### Keys of the scores dict: first-discovery order, no duplicates -/

theorem mapFst_insertScore (l : List (String × ℚ)) (key : String) (v : ℚ) :
    (insertScore l key v).map Prod.fst =
      if key ∈ l.map Prod.fst then l.map Prod.fst else l.map Prod.fst ++ [key] := by
  induction l with
  | nil => simp [insertScore]
  | cons p t ih =>
      obtain ⟨k0, v0⟩ := p
      by_cases hk : k0 = key
      · subst hk
        simp [insertScore]
      · have hne : ¬ key = k0 := fun h => hk h.symm
        simp only [insertScore, if_neg hk, List.map_cons, List.mem_cons]
        rw [ih]
        by_cases hmem : key ∈ t.map Prod.fst
        · simp [hmem, hne]
        · simp [hmem, hne]

theorem firstSeenFrom_congr (t : List String) (s1 s2 : List String)
    (h : ∀ x, x ∈ s1 ↔ x ∈ s2) : firstSeenFrom s1 t = firstSeenFrom s2 t := by
  induction t generalizing s1 s2 with
  | nil => rfl
  | cons x t ih =>
      by_cases hx : x ∈ s1
      · have hx2 : x ∈ s2 := (h x).mp hx
        simp only [firstSeenFrom, if_pos hx, if_pos hx2]
        exact ih s1 s2 h
      · have hx2 : x ∉ s2 := fun hc => hx ((h x).mpr hc)
        simp only [firstSeenFrom, if_neg hx, if_neg hx2]
        rw [ih (x :: s1) (x :: s2)]
        intro y
        simp [h y]

theorem mapFst_foldl_rrfStep (k : ℚ) (ps : List (Nat × Document)) (st : RRFState) :
    ((ps.foldl (rrfStep k) st).scores).map Prod.fst =
      st.scores.map Prod.fst ++
        firstSeenFrom (st.scores.map Prod.fst) (ps.map (fun p => doc_key p.2)) := by
  induction ps generalizing st with
  | nil => simp [firstSeenFrom]
  | cons p t ih =>
      simp only [List.foldl_cons, List.map_cons]
      rw [ih]
      have hstep : ((rrfStep k st p).scores).map Prod.fst =
          if doc_key p.2 ∈ st.scores.map Prod.fst then st.scores.map Prod.fst
          else st.scores.map Prod.fst ++ [doc_key p.2] := by
        simp [rrfStep, mapFst_insertScore]
      by_cases h : doc_key p.2 ∈ st.scores.map Prod.fst
      · rw [hstep, if_pos h]
        simp only [firstSeenFrom, if_pos h]
      · rw [hstep, if_neg h]
        simp only [firstSeenFrom, if_neg h]
        rw [firstSeenFrom_congr (t.map (fun p => doc_key p.2))
          (st.scores.map Prod.fst ++ [doc_key p.2]) (doc_key p.2 :: st.scores.map Prod.fst)]
        · simp
        · intro y
          simp [or_comm]

theorem firstSeenFrom_append (a b : List String) (seen : List String) :
    firstSeenFrom seen (a ++ b) =
      firstSeenFrom seen a ++ firstSeenFrom (seen ++ firstSeenFrom seen a) b := by
  induction a generalizing seen with
  | nil =>
      simp only [List.nil_append, firstSeenFrom, List.append_nil]
  | cons x t ih =>
      by_cases hx : x ∈ seen
      · simp only [List.cons_append, firstSeenFrom, if_pos hx]
        exact ih seen
      · simp only [List.cons_append, firstSeenFrom, if_neg hx, List.append_eq]
        rw [ih (x :: seen)]
        simp only [List.cons_append]
        congr 1
        congr 1
        apply firstSeenFrom_congr
        intro y
        simp
        tauto

theorem mapFst_foldl_rrfAddRanking (k : ℚ) (rankings : List (List Document)) (st : RRFState) :
    ((rankings.foldl (rrfAddRanking k) st).scores).map Prod.fst =
      st.scores.map Prod.fst ++
        firstSeenFrom (st.scores.map Prod.fst) (rankings.flatten.map doc_key) := by
  induction rankings generalizing st with
  | nil => simp [firstSeenFrom]
  | cons r t ih =>
      simp only [List.foldl_cons, List.flatten_cons, List.map_append]
      rw [ih, firstSeenFrom_append]
      have henum : (r.enum.map (fun p => doc_key p.2)) = r.map doc_key := by
        have := List.enum_map_snd r
        calc r.enum.map (fun p => doc_key p.2)
            = (r.enum.map Prod.snd).map doc_key := by rw [List.map_map]; rfl
          _ = r.map doc_key := by rw [this]
      have hadd : ((rrfAddRanking k st r).scores).map Prod.fst =
          st.scores.map Prod.fst ++ firstSeenFrom (st.scores.map Prod.fst) (r.map doc_key) := by
        rw [rrfAddRanking, mapFst_foldl_rrfStep, henum]
      rw [hadd, List.append_assoc]

theorem mapFst_rrfState (k : ℚ) (rankings : List (List Document)) :
    ((rrfState k rankings).scores).map Prod.fst =
      firstSeenFrom [] (rankings.flatten.map doc_key) := by
  rw [rrfState, mapFst_foldl_rrfAddRanking]
  rfl

theorem mem_firstSeenFrom (l : List String) (seen : List String) (x : String) :
    x ∈ firstSeenFrom seen l ↔ x ∈ l ∧ x ∉ seen := by
  induction l generalizing seen with
  | nil => simp [firstSeenFrom]
  | cons y t ih =>
      by_cases hy : y ∈ seen
      · simp only [firstSeenFrom, if_pos hy, ih, List.mem_cons]
        constructor
        · rintro ⟨h1, h2⟩
          exact ⟨Or.inr h1, h2⟩
        · rintro ⟨h1 | h1, h2⟩
          · exact absurd (h1 ▸ hy) h2
          · exact ⟨h1, h2⟩
      · simp only [firstSeenFrom, if_neg hy, List.mem_cons, ih]
        constructor
        · rintro (rfl | ⟨h1, h2⟩)
          · exact ⟨Or.inl rfl, hy⟩
          · refine ⟨Or.inr h1, fun hc => h2 ?_⟩
            simp [hc]
        · rintro ⟨rfl | h1, h2⟩
          · exact Or.inl rfl
          · by_cases hxy : x = y
            · exact Or.inl hxy
            · exact Or.inr ⟨h1, by simp [hxy, h2]⟩

theorem nodup_firstSeenFrom (l : List String) (seen : List String) :
    (firstSeenFrom seen l).Nodup := by
  induction l generalizing seen with
  | nil => simp [firstSeenFrom]
  | cons y t ih =>
      by_cases hy : y ∈ seen
      · simp only [firstSeenFrom, if_pos hy]
        exact ih seen
      · simp only [firstSeenFrom, if_neg hy]
        refine List.Nodup.cons ?_ (ih (y :: seen))
        intro hc
        have := (mem_firstSeenFrom t (y :: seen) y).mp hc
        simp at this

theorem length_firstSeenFrom_nil (l : List String) :
    (firstSeenFrom [] l).length = l.dedup.length := by
  have h1 : (firstSeenFrom [] l).Nodup := nodup_firstSeenFrom l []
  have h2 : l.dedup.Nodup := List.nodup_dedup l
  have hmem : ∀ x, x ∈ firstSeenFrom [] l ↔ x ∈ l.dedup := by
    intro x
    rw [mem_firstSeenFrom, List.mem_dedup]
    simp
  have : (firstSeenFrom [] l).toFinset = l.dedup.toFinset := by
    ext x
    simp [hmem x]
  calc (firstSeenFrom [] l).length
      = (firstSeenFrom [] l).toFinset.card := (List.toFinset_card_of_nodup h1).symm
    _ = l.dedup.toFinset.card := by rw [this]
    _ = l.dedup.length := List.toFinset_card_of_nodup h2

/-! ### The stable descending sort -/

theorem length_sortInsert (x : String × ℚ) (l : List (String × ℚ)) :
    (sortInsert x l).length = l.length + 1 := by
  induction l with
  | nil => rfl
  | cons y t ih =>
      by_cases h : y.2 ≤ x.2 <;> simp [sortInsert, h, ih]

theorem length_sortDesc (l : List (String × ℚ)) : (sortDesc l).length = l.length := by
  induction l with
  | nil => rfl
  | cons x t ih =>
      show (sortInsert x (sortDesc t)).length = t.length + 1
      rw [length_sortInsert, ih]

theorem mem_sortInsert (x z : String × ℚ) (l : List (String × ℚ)) :
    z ∈ sortInsert x l ↔ z = x ∨ z ∈ l := by
  induction l with
  | nil => simp [sortInsert]
  | cons y t ih =>
      by_cases h : y.2 ≤ x.2
      · simp [sortInsert, h]
      · simp [sortInsert, h, ih]
        tauto

theorem sorted_sortInsert (x : String × ℚ) (l : List (String × ℚ))
    (hl : l.Pairwise (fun a b => b.2 ≤ a.2)) :
    (sortInsert x l).Pairwise (fun a b => b.2 ≤ a.2) := by
  induction l with
  | nil => simp [sortInsert]
  | cons y t ih =>
      rcases List.pairwise_cons.mp hl with ⟨hy, ht⟩
      by_cases h : y.2 ≤ x.2
      · simp only [sortInsert, if_pos h]
        refine List.pairwise_cons.mpr ⟨?_, hl⟩
        intro z hz
        rcases List.mem_cons.mp hz with rfl | hz
        · exact h
        · exact le_trans (hy z hz) h
      · simp only [sortInsert, if_neg h]
        refine List.pairwise_cons.mpr ⟨?_, ih ht⟩
        intro z hz
        rcases (mem_sortInsert x z t).mp hz with rfl | hz
        · exact le_of_not_le h
        · exact hy z hz

theorem sorted_sortDesc (l : List (String × ℚ)) :
    (sortDesc l).Pairwise (fun a b => b.2 ≤ a.2) := by
  induction l with
  | nil => simp [sortDesc]
  | cons x t ih => exact sorted_sortInsert x (sortDesc t) ih

theorem filter_sortInsert (x : String × ℚ) (l : List (String × ℚ)) (s : ℚ) :
    (sortInsert x l).filter (fun p => p.2 = s) =
      if x.2 = s then x :: l.filter (fun p => p.2 = s)
      else l.filter (fun p => p.2 = s) := by
  induction l with
  | nil =>
      by_cases h : x.2 = s <;> simp [sortInsert, List.filter_cons, h]
  | cons y t ih =>
      by_cases h : y.2 ≤ x.2
      · simp only [sortInsert, if_pos h]
        by_cases hx : x.2 = s <;> simp [List.filter_cons, hx]
      · have hlt : x.2 < y.2 := lt_of_not_le h
        simp only [sortInsert, if_neg h, List.filter_cons]
        by_cases hy : y.2 = s
        · have hx : ¬ x.2 = s := by
            intro hc
            rw [hc, hy] at hlt
            exact lt_irrefl s hlt
          simp [hy, hx, ih]
        · by_cases hx : x.2 = s <;> simp [hy, hx, ih]

theorem filter_sortDesc (l : List (String × ℚ)) (s : ℚ) :
    (sortDesc l).filter (fun p => p.2 = s) = l.filter (fun p => p.2 = s) := by
  induction l with
  | nil => rfl
  | cons x t ih =>
      show (sortInsert x (sortDesc t)).filter (fun p => p.2 = s) = _
      rw [filter_sortInsert, List.filter_cons]
      by_cases h : x.2 = s <;> simp [h, ih]

theorem perm_sortInsert (x : String × ℚ) (l : List (String × ℚ)) :
    (sortInsert x l).Perm (x :: l) := by
  induction l with
  | nil => simp [sortInsert]
  | cons y t ih =>
      by_cases h : y.2 ≤ x.2
      · simp [sortInsert, h]
      · simp only [sortInsert, if_neg h]
        have h1 : (y :: sortInsert x t).Perm (y :: x :: t) := ih.cons y
        have h2 : (y :: x :: t).Perm (x :: y :: t) := List.Perm.swap x y t
        exact h1.trans h2

theorem perm_sortDesc (l : List (String × ℚ)) : (sortDesc l).Perm l := by
  induction l with
  | nil => rfl
  | cons x t ih =>
      show (sortInsert x (sortDesc t)).Perm (x :: t)
      exact (perm_sortInsert x (sortDesc t)).trans (ih.cons x)

/-! ### The `by_id` dict stores each document under its own key -/

def ByIdInv (m : String → Option Document) : Prop :=
  ∀ key d, m key = some d → doc_key d = key

theorem byIdInv_insertDoc (m : String → Option Document) (d0 : Document)
    (h : ByIdInv m) : ByIdInv (insertDoc m (doc_key d0) d0) := by
  intro key d hd
  by_cases hk : key = doc_key d0
  · subst hk
    have hred : insertDoc m (doc_key d0) d0 (doc_key d0) = some d0 := by
      simp [insertDoc]
    rw [hred] at hd
    exact (congrArg doc_key (Option.some_inj.mp hd)).symm
  · simp only [insertDoc, if_neg hk] at hd
    exact h key d hd

theorem byIdInv_foldl_rrfStep (k : ℚ) (ps : List (Nat × Document)) (st : RRFState)
    (h : ByIdInv st.by_id) : ByIdInv ((ps.foldl (rrfStep k) st).by_id) := by
  induction ps generalizing st with
  | nil => exact h
  | cons p t ih =>
      exact ih (rrfStep k st p) (byIdInv_insertDoc st.by_id p.2 h)

theorem byIdInv_foldl_rrfAddRanking (k : ℚ) (rankings : List (List Document))
    (st : RRFState) (h : ByIdInv st.by_id) :
    ByIdInv ((rankings.foldl (rrfAddRanking k) st).by_id) := by
  induction rankings generalizing st with
  | nil => exact h
  | cons r t ih =>
      exact ih (rrfAddRanking k st r) (byIdInv_foldl_rrfStep k r.enum st h)

theorem byIdInv_rrfState (k : ℚ) (rankings : List (List Document)) :
    ByIdInv (rrfState k rankings).by_id := by
  apply byIdInv_foldl_rrfAddRanking
  intro key d hd
  exact absurd hd (by simp)

/-- The keys of the fused documents form a sublist of the keys of the
pairs they were looked up from. -/
theorem mapKey_filterMap_sublist (m : String → Option Document) (hinv : ByIdInv m)
    (ps : List (String × ℚ)) :
    ((ps.filterMap (fun p => m p.1)).map doc_key).Sublist (ps.map Prod.fst) := by
  induction ps with
  | nil => simp
  | cons p t ih =>
      rw [List.filterMap_cons]
      cases hm : m p.1 with
      | none =>
          simp only [List.map_cons]
          exact ih.cons p.1
      | some d =>
          simp only [List.map_cons]
          have : doc_key d = p.1 := hinv p.1 d hm
          rw [this]
          exact ih.cons₂ p.1

/-! ### Concrete example of §8 of the spec: rankings `[[A,B,C],[B,A,D]]` -/

def docA : Document := ⟨"", mkMeta (some "A") none⟩

def docB : Document := ⟨"", mkMeta (some "B") none⟩

def docC : Document := ⟨"", mkMeta (some "C") none⟩

def docD : Document := ⟨"", mkMeta (some "D") none⟩

def exampleRankings : List (List Document) := [[docA, docB, docC], [docB, docA, docD]]

/-- C1: for every list of rankings and every document identity `key`, the
score the RRF loop assigns to `key` equals the sum, over every ranking and
every zero-based rank `r` at which a document with that identity appears,
of `1/(k + r + 1)` (identity given by `doc_key`: the metadata `id`, with the
`pmcid::id` composite as fallback); and on the spec's example
`[[A,B,C],[B,A,D]]` with `k = 60` the scores are `score(A) = 1/61 + 1/62`,
`score(B) = 1/62 + 1/61` (equal to `score(A)`), and `score(D) = 1/63`. -/
theorem rrf_score_is_sum_of_reciprocal_ranks :
    (∀ (k : ℚ) (rankings : List (List Document)) (key : String),
        scoreOf (rrfState k rankings).scores key = rrfScore k key rankings)
    ∧ scoreOf (rrfState 60 exampleRankings).scores "A" = 1/61 + 1/62
    ∧ scoreOf (rrfState 60 exampleRankings).scores "B" = 1/62 + 1/61
    ∧ scoreOf (rrfState 60 exampleRankings).scores "A"
        = scoreOf (rrfState 60 exampleRankings).scores "B"
    ∧ scoreOf (rrfState 60 exampleRankings).scores "D" = 1/63 := by
  have heval : ∀ key : String,
      scoreOf (rrfState 60 exampleRankings).scores key = rrfScore 60 key exampleRankings :=
    fun key => scoreOf_rrfState 60 exampleRankings key
  have henum1 : ([docA, docB, docC] : List Document).enum
      = [(0, docA), (1, docB), (2, docC)] := rfl
  have henum2 : ([docB, docA, docD] : List Document).enum
      = [(0, docB), (1, docA), (2, docD)] := rfl
  refine ⟨scoreOf_rrfState, ?_, ?_, ?_, ?_⟩ <;>
    simp only [heval] <;>
    simp only [rrfScore, exampleRankings, List.map_cons, List.map_nil,
      rrfContribution, henum1, henum2] <;>
    simp +decide only [doc_key, docA, docB, docC, docD, mkMeta, List.filter_cons,
      List.filter_nil] <;>
    norm_num

/-- C2: `reciprocal_rank_fusion` returns the documents of the scores dict
(one per distinct identity), sorted descending by fused score with ties kept
in first-discovery order across the supplied ranking list, truncated to the
first `top_k`; in particular its length is at most
`min top_k (distinctDocCount rankings)` for all inputs (including empty
rankings), its key list has no duplicates, the scores dict is listed in
first-discovery order of the identities, and equal-scored entries of the
sorted list appear exactly in scores-dict (= first-discovery) order. -/
theorem rrf_fusion_sorted_deduplicated_truncated (k : ℚ) (top_k : Nat)
    (rankings : List (List Document)) :
    (reciprocal_rank_fusion rankings k top_k).length
        ≤ min top_k (distinctDocCount rankings)
    ∧ (rrfOrdered k rankings).Pairwise (fun a b => b.2 ≤ a.2)
    ∧ (∀ s : ℚ, (rrfOrdered k rankings).filter (fun p => p.2 = s)
        = (rrfState k rankings).scores.filter (fun p => p.2 = s))
    ∧ ((rrfState k rankings).scores.map Prod.fst
        = firstSeenFrom [] (rankings.flatten.map doc_key))
    ∧ ((reciprocal_rank_fusion rankings k top_k).map doc_key).Nodup
    ∧ reciprocal_rank_fusion rankings k top_k
        = ((rrfOrdered k rankings).take top_k).filterMap
            (fun p => (rrfState k rankings).by_id p.1) := by
  have hlenScores : (rrfState k rankings).scores.length = distinctDocCount rankings := by
    have h1 : ((rrfState k rankings).scores.map Prod.fst).length
        = (firstSeenFrom [] (rankings.flatten.map doc_key)).length := by
      rw [mapFst_rrfState]
    rw [List.length_map] at h1
    rw [h1, length_firstSeenFrom_nil]
    rfl
  have hnodupKeys : ((rrfState k rankings).scores.map Prod.fst).Nodup := by
    rw [mapFst_rrfState]
    exact nodup_firstSeenFrom _ _
  refine ⟨?_, sorted_sortDesc _, fun s => filter_sortDesc _ s, mapFst_rrfState k rankings, ?_, rfl⟩
  · calc (reciprocal_rank_fusion rankings k top_k).length
        ≤ ((rrfOrdered k rankings).take top_k).length :=
          List.length_filterMap_le _ _
      _ = min top_k (rrfOrdered k rankings).length := List.length_take top_k _
      _ = min top_k (distinctDocCount rankings) := by
          rw [rrfOrdered, length_sortDesc, hlenScores]
  · have hsub : ((reciprocal_rank_fusion rankings k top_k).map doc_key).Sublist
        (((rrfOrdered k rankings).take top_k).map Prod.fst) :=
      mapKey_filterMap_sublist _ (byIdInv_rrfState k rankings) _
    apply hsub.nodup
    have htake : (((rrfOrdered k rankings).take top_k).map Prod.fst).Sublist
        ((rrfOrdered k rankings).map Prod.fst) :=
      (List.take_sublist top_k _).map Prod.fst
    apply htake.nodup
    have hperm : ((rrfOrdered k rankings).map Prod.fst).Perm
        ((rrfState k rankings).scores.map Prod.fst) :=
      (perm_sortDesc _).map Prod.fst
    exact hperm.nodup_iff.mpr hnodupKeys

/-! ### Citation linking (backend/rag/query_cli.py)

The three citation regexes are embedded as deterministic scanners over
`List Char`.  Each pattern's quantified pieces (`\s*`, `\d+`, `(?:...)+`)
are separated from what follows by disjoint character classes, so greedy
matching never backtracks and the scanners below compute exactly the
leftmost, non-overlapping matches that `re.sub` rewrites. -/

def isWs (c : Char) : Bool := c.isWhitespace

/-- `str.strip()`: drop whitespace from both ends. -/
def pyStrip (l : List Char) : List Char :=
  ((l.dropWhile isWs).reverse.dropWhile isWs).reverse

/-- `_normalize_pmcid(raw)` (query_cli.py lines 29-43):
`t = raw.strip().upper().replace(" ", "")`, then keep the digits of the part
after a `PMC` prefix (or of all of `t`), returning `""` when none remain. -/
def normalizePmcId (raw : List Char) : List Char :=
  if raw = [] then []
  else
    let t := ((pyStrip raw).map Char.toUpper).filter (fun c => c ≠ ' ')
    if t.take 3 = ['P', 'M', 'C'] then
      let digits := (t.drop 3).filter Char.isDigit
      if digits = [] then [] else 'P' :: 'M' :: 'C' :: digits
    else
      let digits := t.filter Char.isDigit
      if digits = [] then [] else 'P' :: 'M' :: 'C' :: digits

/-- String-level wrapper of `_normalize_pmcid`. -/
def _normalize_pmcid (raw : String) : String :=
  (normalizePmcId raw.toList).asString

/-- `pmc\s*\d+` (case-insensitive): returns the matched chars and the rest. -/
def parsePmcId (l : List Char) : Option (List Char × List Char) :=
  match l with
  | p :: m :: c :: rest =>
      if ((p = 'p' || p = 'P') && (m = 'm' || m = 'M') && (c = 'c' || c = 'C')) = true then
        let ws := rest.takeWhile isWs
        let r1 := rest.dropWhile isWs
        let ds := r1.takeWhile Char.isDigit
        let r2 := r1.dropWhile Char.isDigit
        if ds = [] then none
        else some (p :: m :: c :: (ws ++ ds), r2)
      else none
  | _ => none

theorem parsePmcId_rest_lt (l m r : List Char) (h : parsePmcId l = some (m, r)) :
    r.length < l.length := by
  match l with
  | [] => exact absurd h (by simp [parsePmcId])
  | [p] => exact absurd h (by simp [parsePmcId])
  | [p, q] => exact absurd h (by simp [parsePmcId])
  | p :: q :: c :: rest =>
      simp only [parsePmcId] at h
      by_cases hc : ((p = 'p' || p = 'P') && (q = 'm' || q = 'M') && (c = 'c' || c = 'C')) = true
      · rw [if_pos hc] at h
        by_cases hds : (rest.dropWhile isWs).takeWhile Char.isDigit = []
        · rw [if_pos hds] at h
          exact absurd h (by simp)
        · rw [if_neg hds] at h
          have hr : r = (rest.dropWhile isWs).dropWhile Char.isDigit := by
            have := (Option.some_inj.mp h)
            exact (congrArg Prod.snd this).symm
          have h1 : ((rest.dropWhile isWs).dropWhile Char.isDigit).length
              ≤ (rest.dropWhile isWs).length := (List.dropWhile_sublist _).length_le
          have h2 : (rest.dropWhile isWs).length ≤ rest.length :=
            (List.dropWhile_sublist _).length_le
          simp only [hr, List.length_cons]
          omega
      · rw [if_neg hc] at h
        exact absurd h (by simp)

/-- One iteration `\s*,\s*pmc\s*\d+` of the multi-bracket id list. -/
def parseIdTail (l : List Char) : Option (List Char × List Char) :=
  match l.dropWhile isWs with
  | c :: r2 =>
      if c = ',' then
        match parsePmcId (r2.dropWhile isWs) with
        | some (idm, r4) =>
            some (l.takeWhile isWs ++ ',' :: (r2.takeWhile isWs ++ idm), r4)
        | none => none
      else none
  | [] => none

theorem parseIdTail_rest_lt (l m r : List Char) (h : parseIdTail l = some (m, r)) :
    r.length < l.length := by
  rw [parseIdTail] at h
  cases hdw : l.dropWhile isWs with
  | nil => rw [hdw] at h; exact absurd h (by simp)
  | cons c r2 =>
      rw [hdw] at h
      dsimp only at h
      by_cases hc : c = ','
      · rw [if_pos hc] at h
        cases hp : parsePmcId (r2.dropWhile isWs) with
        | none => rw [hp] at h; exact absurd h (by simp)
        | some pr =>
            obtain ⟨idm, r4⟩ := pr
            rw [hp] at h
            have hr : r = r4 := (congrArg Prod.snd (Option.some_inj.mp h)).symm
            have ha : r4.length < (r2.dropWhile isWs).length :=
              parsePmcId_rest_lt _ _ _ hp
            have hb : (r2.dropWhile isWs).length ≤ r2.length :=
              (List.dropWhile_sublist _).length_le
            have hd : (l.dropWhile isWs).length ≤ l.length :=
              (List.dropWhile_sublist _).length_le
            rw [hdw] at hd
            simp only [List.length_cons] at hd
            rw [hr]
            omega
      · rw [if_neg hc] at h
        exact absurd h (by simp)

/-- Greedy repetition of `parseIdTail` (the `(?:pmc\\s*\\d+\\s*,\\s*)+` loop,
reassociated as first-id followed by comma-id tails), with an explicit fuel
argument for structural recursion; each successful `parseIdTail` step
strictly consumes input, so fuel `l.length` is always sufficient. -/
def parseMoreIdsF : Nat → List Char → List (List Char) × List Char
  | 0, l => ([], l)
  | fuel + 1, l =>
      match parseIdTail l with
      | none => ([], l)
      | some (m, r) =>
          let p := parseMoreIdsF fuel r
          (m :: p.1, p.2)

/-- The greedy id-list loop at its canonical fuel. -/
def parseMoreIds (l : List Char) : List (List Char) × List Char :=
  parseMoreIdsF l.length l

theorem parseMoreIdsF_nil (fuel : Nat) : parseMoreIdsF fuel [] = ([], []) := by
  cases fuel with
  | zero => rfl
  | succ f => rfl

theorem parseMoreIdsF_invariant (f1 : Nat) :
    ∀ (f2 : Nat) (l : List Char), l.length ≤ f1 → l.length ≤ f2 →
      parseMoreIdsF f1 l = parseMoreIdsF f2 l := by
  induction f1 with
  | zero =>
      intro f2 l h1 h2
      have : l = [] := List.eq_nil_of_length_eq_zero (Nat.le_zero.mp h1)
      subst this
      rw [parseMoreIdsF_nil, parseMoreIdsF_nil]
  | succ f1 ih =>
      intro f2 l h1 h2
      cases f2 with
      | zero =>
          have : l = [] := List.eq_nil_of_length_eq_zero (Nat.le_zero.mp h2)
          subst this
          rw [parseMoreIdsF_nil, parseMoreIdsF_nil]
      | succ f2 =>
          show (match parseIdTail l with
            | none => ([], l)
            | some (m, r) =>
                let p := parseMoreIdsF f1 r
                (m :: p.1, p.2)) =
            (match parseIdTail l with
            | none => ([], l)
            | some (m, r) =>
                let p := parseMoreIdsF f2 r
                (m :: p.1, p.2))
          cases hp : parseIdTail l with
          | none => rfl
          | some pr =>
              obtain ⟨m, r⟩ := pr
              have hlt : r.length < l.length := parseIdTail_rest_lt l m r hp
              dsimp only
              rw [ih f2 r (by omega) (by omega)]

theorem parseMoreIds_eq_none (l : List Char) (h : parseIdTail l = none) :
    parseMoreIds l = ([], l) := by
  cases l with
  | nil => rfl
  | cons c t =>
      show parseMoreIdsF (t.length + 1) (c :: t) = ([], c :: t)
      simp [parseMoreIdsF, h]

theorem parseMoreIds_eq_some (l m r : List Char) (h : parseIdTail l = some (m, r)) :
    parseMoreIds l = (m :: (parseMoreIds r).1, (parseMoreIds r).2) := by
  cases l with
  | nil =>
      have : parseIdTail ([] : List Char) = none := rfl
      rw [this] at h
      exact absurd h (by simp)
  | cons c t =>
      show parseMoreIdsF (t.length + 1) (c :: t) = _
      have hlt : r.length < (c :: t).length := parseIdTail_rest_lt _ m r h
      simp only [List.length_cons] at hlt
      have : parseMoreIdsF t.length r = parseMoreIds r :=
        parseMoreIdsF_invariant t.length r.length r (by omega) (le_refl _)
      show (match parseIdTail (c :: t) with
        | none => ([], c :: t)
        | some (m, r) =>
            let p := parseMoreIdsF t.length r
            (m :: p.1, p.2)) = _
      rw [h]
      dsimp only
      rw [this]

theorem parseMoreIds_rest_le_aux (n : Nat) :
    ∀ l : List Char, l.length = n → (parseMoreIds l).2.length ≤ l.length := by
  induction n using Nat.strong_induction_on with
  | _ n ih =>
      intro l hl
      cases hp : parseIdTail l with
      | none => rw [parseMoreIds_eq_none l hp]
      | some pr =>
          obtain ⟨m, r⟩ := pr
          rw [parseMoreIds_eq_some l m r hp]
          have hlt : r.length < l.length := parseIdTail_rest_lt l m r hp
          have := ih r.length (by omega) r rfl
          simp only []
          omega

theorem parseMoreIds_rest_le (l : List Char) : (parseMoreIds l).2.length ≤ l.length :=
  parseMoreIds_rest_le_aux l.length l rfl

/-- `PMC_MULTI_BRACKET_RE = r"\[\s*((?:pmc\s*\d+\s*,\s*)+pmc\s*\d+)\s*\]"`,
matched at the current position: returns `(group(1), rest-after-match)`;
`none` when the pattern does not match here. -/
def tryMatchMulti (l : List Char) : Option (List Char × List Char) :=
  match l with
  | c0 :: r0 =>
      if c0 = '[' then
        match parsePmcId (r0.dropWhile isWs) with
        | some (id1, r2) =>
            match parseMoreIds r2 with
            | ([], _) => none
            | (tails, r3) =>
                match r3.dropWhile isWs with
                | c2 :: rest => if c2 = ']' then some (id1 ++ tails.flatten, rest) else none
                | [] => none
        | none => none
      else none
  | [] => none

theorem tryMatchMulti_not_bracket (c : Char) (t : List Char) (h : ¬ c = '[') :
    tryMatchMulti (c :: t) = none := by
  rw [tryMatchMulti, if_neg h]

theorem tryMatchMulti_rest_lt (l g r : List Char) (h : tryMatchMulti l = some (g, r)) :
    r.length < l.length := by
  match l with
  | [] => exact absurd h (by simp [tryMatchMulti])
  | c :: r0 =>
      by_cases hc : c = '['
      · subst hc
        rw [tryMatchMulti, if_pos rfl] at h
        cases hp : parsePmcId (r0.dropWhile isWs) with
        | none => rw [hp] at h; exact absurd h (by simp)
        | some pr =>
            obtain ⟨id1, r2⟩ := pr
            rw [hp] at h
            dsimp only at h
            cases hm : parseMoreIds r2 with
            | mk tails r3 =>
                rw [hm] at h
                cases tails with
                | nil => exact absurd h (by simp)
                | cons t ts =>
                    dsimp only at h
                    cases hdw : r3.dropWhile isWs with
                    | nil => rw [hdw] at h; exact absurd h (by simp)
                    | cons c2 rest2 =>
                        rw [hdw] at h
                        dsimp only at h
                        by_cases hc2 : c2 = ']'
                        · rw [if_pos hc2] at h
                          have hr : r = rest2 := (congrArg Prod.snd (Option.some_inj.mp h)).symm
                          have h1 : (r3.dropWhile isWs).length ≤ r3.length :=
                            (List.dropWhile_sublist _).length_le
                          rw [hdw] at h1
                          simp only [List.length_cons] at h1
                          have h2 : r3.length ≤ r2.length := by
                            have := parseMoreIds_rest_le r2
                            rw [hm] at this
                            exact this
                          have h3 : r2.length < (r0.dropWhile isWs).length :=
                            parsePmcId_rest_lt _ _ _ hp
                          have h4 : (r0.dropWhile isWs).length ≤ r0.length :=
                            (List.dropWhile_sublist _).length_le
                          rw [hr]
                          simp only [List.length_cons]
                          omega
                        · rw [if_neg hc2] at h
                          exact absurd h (by simp)
      · rw [tryMatchMulti_not_bracket c r0 hc] at h
        exact absurd h (by simp)

/-- `PMC_DOUBLE_BRACKET_NOLINK_RE = r"\[\[\s*(pmc\s*\d+)\s*\]\](?!\()"`:
returns `(group(1), group(0), rest)`. -/
def tryMatchDouble (l : List Char) : Option (List Char × List Char × List Char) :=
  match l with
  | c0 :: c1 :: r0 =>
      if c0 = '[' ∧ c1 = '[' then
        match parsePmcId (r0.dropWhile isWs) with
        | some (idm, r2) =>
            match r2.dropWhile isWs with
            | c2 :: c3 :: rest =>
                if c2 = ']' ∧ c3 = ']' then
                  if rest.head? = some '(' then none
                  else
                    some (idm,
                      '[' :: '[' :: (r0.takeWhile isWs ++ idm ++ r2.takeWhile isWs ++ [']', ']']),
                      rest)
                else none
            | _ => none
        | none => none
      else none
  | _ => none

/-- `PMC_SINGLE_BRACKET_RE = r"\[\s*(pmc\s*\d+)\s*\]"`:
returns `(group(1), group(0), rest)`. -/
def tryMatchSingle (l : List Char) : Option (List Char × List Char × List Char) :=
  match l with
  | c0 :: r0 =>
      if c0 = '[' then
        match parsePmcId (r0.dropWhile isWs) with
        | some (idm, r2) =>
            match r2.dropWhile isWs with
            | c2 :: rest =>
                if c2 = ']' then
                  some (idm, '[' :: (r0.takeWhile isWs ++ idm ++ r2.takeWhile isWs ++ [']']), rest)
                else none
            | [] => none
        | none => none
      else none
  | [] => none

theorem tryMatchDouble_rest_lt (l g m r : List Char)
    (h : tryMatchDouble l = some (g, m, r)) : r.length < l.length := by
  match l with
  | [] => exact absurd h (by simp [tryMatchDouble])
  | [c] => exact absurd h (by simp [tryMatchDouble])
  | c0 :: c1 :: r0 =>
      rw [tryMatchDouble] at h
      by_cases hb : c0 = '[' ∧ c1 = '['
      · rw [if_pos hb] at h
        cases hp : parsePmcId (r0.dropWhile isWs) with
        | none => rw [hp] at h; exact absurd h (by simp)
        | some pr =>
            obtain ⟨idm, r2⟩ := pr
            rw [hp] at h
            dsimp only at h
            cases hdw : r2.dropWhile isWs with
            | nil => rw [hdw] at h; exact absurd h (by simp)
            | cons c2 rest0 =>
                rw [hdw] at h
                cases rest0 with
                | nil => exact absurd h (by simp)
                | cons c3 rest =>
                    dsimp only at h
                    by_cases hbb : c2 = ']' ∧ c3 = ']'
                    · rw [if_pos hbb] at h
                      by_cases hpar : rest.head? = some '('
                      · rw [if_pos hpar] at h
                        exact absurd h (by simp)
                      · rw [if_neg hpar] at h
                        have hr : r = rest := by
                          have := Option.some_inj.mp h
                          exact (congrArg (fun q => q.2.2) this).symm
                        have h1 : (r2.dropWhile isWs).length ≤ r2.length :=
                          (List.dropWhile_sublist _).length_le
                        rw [hdw] at h1
                        simp only [List.length_cons] at h1
                        have h2 : r2.length < (r0.dropWhile isWs).length :=
                          parsePmcId_rest_lt _ _ _ hp
                        have h3 : (r0.dropWhile isWs).length ≤ r0.length :=
                          (List.dropWhile_sublist _).length_le
                        rw [hr]
                        simp only [List.length_cons]
                        omega
                    · rw [if_neg hbb] at h
                      exact absurd h (by simp)
      · rw [if_neg hb] at h
        exact absurd h (by simp)

theorem tryMatchSingle_rest_lt (l g m r : List Char)
    (h : tryMatchSingle l = some (g, m, r)) : r.length < l.length := by
  match l with
  | [] => exact absurd h (by simp [tryMatchSingle])
  | c0 :: r0 =>
      rw [tryMatchSingle] at h
      by_cases hb : c0 = '['
      · rw [if_pos hb] at h
        cases hp : parsePmcId (r0.dropWhile isWs) with
        | none => rw [hp] at h; exact absurd h (by simp)
        | some pr =>
            obtain ⟨idm, r2⟩ := pr
            rw [hp] at h
            dsimp only at h
            cases hdw : r2.dropWhile isWs with
            | nil => rw [hdw] at h; exact absurd h (by simp)
            | cons c2 rest =>
                rw [hdw] at h
                dsimp only at h
                by_cases hc2 : c2 = ']'
                · rw [if_pos hc2] at h
                  have hr : r = rest := by
                    have := Option.some_inj.mp h
                    exact (congrArg (fun q => q.2.2) this).symm
                  have h1 : (r2.dropWhile isWs).length ≤ r2.length :=
                    (List.dropWhile_sublist _).length_le
                  rw [hdw] at h1
                  simp only [List.length_cons] at h1
                  have h2 : r2.length < (r0.dropWhile isWs).length :=
                    parsePmcId_rest_lt _ _ _ hp
                  have h3 : (r0.dropWhile isWs).length ≤ r0.length :=
                    (List.dropWhile_sublist _).length_le
                  rw [hr]
                  simp only [List.length_cons]
                  omega
                · rw [if_neg hc2] at h
                  exact absurd h (by simp)
      · rw [if_neg hb] at h
        exact absurd h (by simp)

/-- Python `str.split(",")` on char lists. -/
def splitOnComma : List Char → List (List Char)
  | [] => [[]]
  | c :: t =>
      if c = ',' then [] :: splitOnComma t
      else
        match splitOnComma t with
        | [] => [[c]]
        | g :: gs => (c :: g) :: gs

/-- `linkify(pmc_raw)` inside `_link_citations_md`: normalize, look the id up
in `pmc_map`, and produce `[[PMC]](url)` or re-bracket the raw token. -/
def linkify (pmc_map : List (String × String)) (pmc_raw : List Char) : List Char :=
  let pmc := normalizePmcId pmc_raw
  match List.lookup pmc.asString pmc_map with
  | some url => ('[' :: '[' :: pmc ++ [']', ']', '(']) ++ url.toList ++ [')']
  | none => '[' :: (pmc_raw ++ [']'])

/-- `repl_multi`: split `group(1)` on commas, strip the tokens, drop empty
ones, linkify each, and join with `", "`. -/
def replMulti (pmc_map : List (String × String)) (group1 : List Char) : List Char :=
  let toks := ((splitOnComma group1).map pyStrip).filter (fun t => t ≠ [])
  List.intercalate [',', ' '] (toks.map (linkify pmc_map))

/-- `repl_double_no_link` / `repl_single`: produce `[[PMC]](url)` when the
normalized id is in the map, otherwise return `group(0)` unchanged. -/
def replBracket (pmc_map : List (String × String)) (group1 group0 : List Char) : List Char :=
  let pmc := normalizePmcId group1
  match List.lookup pmc.asString pmc_map with
  | some url => ('[' :: '[' :: pmc ++ [']', ']', '(']) ++ url.toList ++ [')']
  | none => group0

/-- `PMC_MULTI_BRACKET_RE.sub(repl_multi, ...)`: leftmost, non-overlapping
scan; positions that do not start a match are copied unchanged.  Fueled for
structural recursion; every step consumes at least one character, so fuel
`l.length` is always sufficient. -/
def subMultiF (pmc_map : List (String × String)) : Nat → List Char → List Char
  | 0, l => l
  | fuel + 1, l =>
      match l with
      | [] => []
      | c :: t =>
          match tryMatchMulti (c :: t) with
          | some (g, rest) => replMulti pmc_map g ++ subMultiF pmc_map fuel rest
          | none => c :: subMultiF pmc_map fuel t

def subMulti (pmc_map : List (String × String)) (l : List Char) : List Char :=
  subMultiF pmc_map l.length l

/-- `PMC_DOUBLE_BRACKET_NOLINK_RE.sub(repl_double_no_link, ...)`. -/
def subDoubleF (pmc_map : List (String × String)) : Nat → List Char → List Char
  | 0, l => l
  | fuel + 1, l =>
      match l with
      | [] => []
      | c :: t =>
          match tryMatchDouble (c :: t) with
          | some (g, m, rest) => replBracket pmc_map g m ++ subDoubleF pmc_map fuel rest
          | none => c :: subDoubleF pmc_map fuel t

def subDouble (pmc_map : List (String × String)) (l : List Char) : List Char :=
  subDoubleF pmc_map l.length l

/-- `PMC_SINGLE_BRACKET_RE.sub(repl_single, ...)`. -/
def subSingleF (pmc_map : List (String × String)) : Nat → List Char → List Char
  | 0, l => l
  | fuel + 1, l =>
      match l with
      | [] => []
      | c :: t =>
          match tryMatchSingle (c :: t) with
          | some (g, m, rest) => replBracket pmc_map g m ++ subSingleF pmc_map fuel rest
          | none => c :: subSingleF pmc_map fuel t

def subSingle (pmc_map : List (String × String)) (l : List Char) : List Char :=
  subSingleF pmc_map l.length l

theorem subMultiF_invariant (pm : List (String × String)) (f1 : Nat) :
    ∀ (f2 : Nat) (l : List Char), l.length ≤ f1 → l.length ≤ f2 →
      subMultiF pm f1 l = subMultiF pm f2 l := by
  induction f1 with
  | zero =>
      intro f2 l h1 h2
      have : l = [] := List.eq_nil_of_length_eq_zero (Nat.le_zero.mp h1)
      subst this
      cases f2 <;> rfl
  | succ f1 ih =>
      intro f2 l h1 h2
      cases f2 with
      | zero =>
          have : l = [] := List.eq_nil_of_length_eq_zero (Nat.le_zero.mp h2)
          subst this
          rfl
      | succ f2 =>
          cases l with
          | nil => rfl
          | cons c t =>
              show (match tryMatchMulti (c :: t) with
                | some (g, rest) => replMulti pm g ++ subMultiF pm f1 rest
                | none => c :: subMultiF pm f1 t) =
                (match tryMatchMulti (c :: t) with
                | some (g, rest) => replMulti pm g ++ subMultiF pm f2 rest
                | none => c :: subMultiF pm f2 t)
              cases hm : tryMatchMulti (c :: t) with
              | none =>
                  dsimp only
                  simp only [List.length_cons] at h1 h2
                  rw [ih f2 t (by omega) (by omega)]
              | some pr =>
                  obtain ⟨g, rest⟩ := pr
                  have := tryMatchMulti_rest_lt (c :: t) g rest hm
                  simp only [List.length_cons] at h1 h2 this
                  dsimp only
                  rw [ih f2 rest (by omega) (by omega)]

theorem subDoubleF_invariant (pm : List (String × String)) (f1 : Nat) :
    ∀ (f2 : Nat) (l : List Char), l.length ≤ f1 → l.length ≤ f2 →
      subDoubleF pm f1 l = subDoubleF pm f2 l := by
  induction f1 with
  | zero =>
      intro f2 l h1 h2
      have : l = [] := List.eq_nil_of_length_eq_zero (Nat.le_zero.mp h1)
      subst this
      cases f2 <;> rfl
  | succ f1 ih =>
      intro f2 l h1 h2
      cases f2 with
      | zero =>
          have : l = [] := List.eq_nil_of_length_eq_zero (Nat.le_zero.mp h2)
          subst this
          rfl
      | succ f2 =>
          cases l with
          | nil => rfl
          | cons c t =>
              show (match tryMatchDouble (c :: t) with
                | some (g, m, rest) => replBracket pm g m ++ subDoubleF pm f1 rest
                | none => c :: subDoubleF pm f1 t) =
                (match tryMatchDouble (c :: t) with
                | some (g, m, rest) => replBracket pm g m ++ subDoubleF pm f2 rest
                | none => c :: subDoubleF pm f2 t)
              cases hm : tryMatchDouble (c :: t) with
              | none =>
                  dsimp only
                  simp only [List.length_cons] at h1 h2
                  rw [ih f2 t (by omega) (by omega)]
              | some pr =>
                  obtain ⟨g, m, rest⟩ := pr
                  have := tryMatchDouble_rest_lt (c :: t) g m rest hm
                  simp only [List.length_cons] at h1 h2 this
                  dsimp only
                  rw [ih f2 rest (by omega) (by omega)]

theorem subSingleF_invariant (pm : List (String × String)) (f1 : Nat) :
    ∀ (f2 : Nat) (l : List Char), l.length ≤ f1 → l.length ≤ f2 →
      subSingleF pm f1 l = subSingleF pm f2 l := by
  induction f1 with
  | zero =>
      intro f2 l h1 h2
      have : l = [] := List.eq_nil_of_length_eq_zero (Nat.le_zero.mp h1)
      subst this
      cases f2 <;> rfl
  | succ f1 ih =>
      intro f2 l h1 h2
      cases f2 with
      | zero =>
          have : l = [] := List.eq_nil_of_length_eq_zero (Nat.le_zero.mp h2)
          subst this
          rfl
      | succ f2 =>
          cases l with
          | nil => rfl
          | cons c t =>
              show (match tryMatchSingle (c :: t) with
                | some (g, m, rest) => replBracket pm g m ++ subSingleF pm f1 rest
                | none => c :: subSingleF pm f1 t) =
                (match tryMatchSingle (c :: t) with
                | some (g, m, rest) => replBracket pm g m ++ subSingleF pm f2 rest
                | none => c :: subSingleF pm f2 t)
              cases hm : tryMatchSingle (c :: t) with
              | none =>
                  dsimp only
                  simp only [List.length_cons] at h1 h2
                  rw [ih f2 t (by omega) (by omega)]
              | some pr =>
                  obtain ⟨g, m, rest⟩ := pr
                  have := tryMatchSingle_rest_lt (c :: t) g m rest hm
                  simp only [List.length_cons] at h1 h2 this
                  dsimp only
                  rw [ih f2 rest (by omega) (by omega)]

theorem subMulti_nomatch (pm : List (String × String)) (c : Char) (t : List Char)
    (h : tryMatchMulti (c :: t) = none) : subMulti pm (c :: t) = c :: subMulti pm t := by
  show subMultiF pm (t.length + 1) (c :: t) = _
  show (match tryMatchMulti (c :: t) with
    | some (g, rest) => replMulti pm g ++ subMultiF pm t.length rest
    | none => c :: subMultiF pm t.length t) = _
  rw [h]
  rfl

theorem subMulti_match (pm : List (String × String)) (c : Char) (t g rest : List Char)
    (h : tryMatchMulti (c :: t) = some (g, rest)) :
    subMulti pm (c :: t) = replMulti pm g ++ subMulti pm rest := by
  show subMultiF pm (t.length + 1) (c :: t) = _
  show (match tryMatchMulti (c :: t) with
    | some (g, rest) => replMulti pm g ++ subMultiF pm t.length rest
    | none => c :: subMultiF pm t.length t) = _
  rw [h]
  dsimp only
  have hlt := tryMatchMulti_rest_lt (c :: t) g rest h
  simp only [List.length_cons] at hlt
  rw [subMultiF_invariant pm t.length rest.length rest (by omega) (le_refl _)]
  rfl

theorem subDouble_nomatch (pm : List (String × String)) (c : Char) (t : List Char)
    (h : tryMatchDouble (c :: t) = none) : subDouble pm (c :: t) = c :: subDouble pm t := by
  show subDoubleF pm (t.length + 1) (c :: t) = _
  show (match tryMatchDouble (c :: t) with
    | some (g, m, rest) => replBracket pm g m ++ subDoubleF pm t.length rest
    | none => c :: subDoubleF pm t.length t) = _
  rw [h]
  rfl

theorem subDouble_match (pm : List (String × String)) (c : Char) (t g m rest : List Char)
    (h : tryMatchDouble (c :: t) = some (g, m, rest)) :
    subDouble pm (c :: t) = replBracket pm g m ++ subDouble pm rest := by
  show subDoubleF pm (t.length + 1) (c :: t) = _
  show (match tryMatchDouble (c :: t) with
    | some (g, m, rest) => replBracket pm g m ++ subDoubleF pm t.length rest
    | none => c :: subDoubleF pm t.length t) = _
  rw [h]
  dsimp only
  have hlt := tryMatchDouble_rest_lt (c :: t) g m rest h
  simp only [List.length_cons] at hlt
  rw [subDoubleF_invariant pm t.length rest.length rest (by omega) (le_refl _)]
  rfl

theorem subSingle_nomatch (pm : List (String × String)) (c : Char) (t : List Char)
    (h : tryMatchSingle (c :: t) = none) : subSingle pm (c :: t) = c :: subSingle pm t := by
  show subSingleF pm (t.length + 1) (c :: t) = _
  show (match tryMatchSingle (c :: t) with
    | some (g, m, rest) => replBracket pm g m ++ subSingleF pm t.length rest
    | none => c :: subSingleF pm t.length t) = _
  rw [h]
  rfl

theorem subSingle_match (pm : List (String × String)) (c : Char) (t g m rest : List Char)
    (h : tryMatchSingle (c :: t) = some (g, m, rest)) :
    subSingle pm (c :: t) = replBracket pm g m ++ subSingle pm rest := by
  show subSingleF pm (t.length + 1) (c :: t) = _
  show (match tryMatchSingle (c :: t) with
    | some (g, m, rest) => replBracket pm g m ++ subSingleF pm t.length rest
    | none => c :: subSingleF pm t.length t) = _
  rw [h]
  dsimp only
  have hlt := tryMatchSingle_rest_lt (c :: t) g m rest h
  simp only [List.length_cons] at hlt
  rw [subSingleF_invariant pm t.length rest.length rest (by omega) (le_refl _)]
  rfl

/-- `_link_citations_md(answer, pmc_map)` (query_cli.py lines 81-127):
multi-bracket pass first, then the double-bracket no-link pass, then the
single-bracket pass; empty answers map to `""`. -/
def _link_citations_md (answer : String) (pmc_map : List (String × String)) : String :=
  if answer = "" then ""
  else (subSingle pmc_map (subDouble pmc_map (subMulti pmc_map answer.toList))).asString

/-! ### Properties of `_normalize_pmcid` -/

theorem mem_pyStrip (l : List Char) (c : Char) (h : c ∈ pyStrip l) : c ∈ l := by
  simp only [pyStrip, List.mem_reverse] at h
  have h1 := (List.dropWhile_sublist isWs (l := (l.dropWhile isWs).reverse)).mem h
  rw [List.mem_reverse] at h1
  exact (List.dropWhile_sublist isWs (l := l)).mem h1

theorem normalizePmcId_no_digits (l : List Char)
    (h : ∀ c ∈ l, c.isDigit = false) : normalizePmcId l = [] := by
  rw [normalizePmcId]
  by_cases hl : l = []
  · rw [if_pos hl]
  · rw [if_neg hl]
    have ht : ∀ c ∈ ((pyStrip l).map Char.toUpper).filter (fun c => c ≠ ' '),
        c.isDigit = false := by
      intro c hc
      have hc1 := List.mem_of_mem_filter hc
      obtain ⟨c0, hc0, rfl⟩ := List.mem_map.mp hc1
      rw [toUpper_isDigit]
      exact h c0 (mem_pyStrip l c0 hc0)
    by_cases hpmc : (((pyStrip l).map Char.toUpper).filter (fun c => c ≠ ' ')).take 3
        = ['P', 'M', 'C']
    · rw [if_pos hpmc]
      have hdig : ((((pyStrip l).map Char.toUpper).filter (fun c => c ≠ ' ')).drop 3).filter
          Char.isDigit = [] := by
        rw [List.filter_eq_nil_iff]
        intro c hc
        simp only [Bool.not_eq_true]
        exact ht c (List.mem_of_mem_drop hc)
      rw [hdig]
      simp
    · rw [if_neg hpmc]
      have hdig : (((pyStrip l).map Char.toUpper).filter (fun c => c ≠ ' ')).filter
          Char.isDigit = [] := by
        rw [List.filter_eq_nil_iff]
        intro c hc
        simp only [Bool.not_eq_true]
        exact ht c hc
      rw [hdig]
      simp

theorem normalizePmcId_shape (l : List Char) :
    normalizePmcId l = [] ∨
      ∃ ds : List Char, ds ≠ [] ∧ (∀ c ∈ ds, c.isDigit = true) ∧
        normalizePmcId l = 'P' :: 'M' :: 'C' :: ds := by
  rw [normalizePmcId]
  by_cases hl : l = []
  · rw [if_pos hl]; exact Or.inl rfl
  · rw [if_neg hl]
    by_cases hpmc : (((pyStrip l).map Char.toUpper).filter (fun c => c ≠ ' ')).take 3
        = ['P', 'M', 'C']
    · rw [if_pos hpmc]
      by_cases hd : ((((pyStrip l).map Char.toUpper).filter (fun c => c ≠ ' ')).drop 3).filter
          Char.isDigit = []
      · rw [if_pos hd]; exact Or.inl rfl
      · rw [if_neg hd]
        refine Or.inr ⟨_, hd, fun c hc => List.of_mem_filter hc, rfl⟩
    · rw [if_neg hpmc]
      by_cases hd : (((pyStrip l).map Char.toUpper).filter (fun c => c ≠ ' ')).filter
          Char.isDigit = []
      · rw [if_pos hd]; exact Or.inl rfl
      · rw [if_neg hd]
        refine Or.inr ⟨_, hd, fun c hc => List.of_mem_filter hc, rfl⟩

/-- C6: `_normalize_pmcid` maps `"pmc 123"`, `"PMC123"`, `"pmc123"`, and
`"123"` to `"PMC123"`; every input with no digit character (the empty string
included) maps to `""`; and every output is either empty or the fixed
alphabetic prefix `PMC` followed by one or more digits. -/
theorem normalize_id_canonicalizes :
    _normalize_pmcid "pmc 123" = "PMC123"
    ∧ _normalize_pmcid "PMC123" = "PMC123"
    ∧ _normalize_pmcid "pmc123" = "PMC123"
    ∧ _normalize_pmcid "123" = "PMC123"
    ∧ _normalize_pmcid "" = ""
    ∧ (∀ raw : String, (∀ c ∈ raw.toList, c.isDigit = false) → _normalize_pmcid raw = "")
    ∧ (∀ raw : String, _normalize_pmcid raw = "" ∨
        ∃ ds : List Char, ds ≠ [] ∧ (∀ c ∈ ds, c.isDigit = true) ∧
          _normalize_pmcid raw = ('P' :: 'M' :: 'C' :: ds).asString) := by
  refine ⟨by decide, by decide, by decide, by decide, by decide, ?_, ?_⟩
  · intro raw h
    rw [_normalize_pmcid, normalizePmcId_no_digits raw.toList h]
    rfl
  · intro raw
    rcases normalizePmcId_shape raw.toList with h | ⟨ds, h1, h2, h3⟩
    · exact Or.inl (by rw [_normalize_pmcid, h]; rfl)
    · exact Or.inr ⟨ds, h1, h2, by rw [_normalize_pmcid, h3]⟩

/-- Witness for `normalize_id_canonicalizes`: the no-digit clause applied to
the concrete garbage input `"?!pmc"`. -/
theorem normalize_id_canonicalizes_witness :
    (∀ c ∈ ("?!pmc" : String).toList, c.isDigit = false) ∧ _normalize_pmcid "?!pmc" = "" :=
  ⟨by decide, normalize_id_canonicalizes.2.2.2.2.2.1 "?!pmc" (by decide)⟩

/-- C7 (code bug): for the marker `"[PMC1, PMC2]"` with both ids mapped, the
multi-bracket pass alone does produce the two independently linked markers
joined by `", "` in left-to-right order, exactly as the function's own
docstring promises (`[PMC123, PMC456] -> [[PMC123]](url), [[PMC456]](url)`);
but the full `_link_citations_md` then runs the single-bracket pass over
that output, whose regex re-matches the inner `[PMC1]` of each freshly
linked `[[PMC1]](u1)`, so the function actually returns the doubly wrapped
`[[[PMC1]](u1)](u1), [[[PMC2]](u2)](u2)`.  With unmapped ids (where
`linkify` only re-brackets the tokens) the claimed split does survive to
the output. -/
theorem multi_bracket_split_is_mangled_by_single_pass :
    subMulti [("PMC1", "u1"), ("PMC2", "u2")] ("[PMC1, PMC2]").toList
        = ("[[PMC1]](u1), [[PMC2]](u2)").toList
    ∧ _link_citations_md "[PMC1, PMC2]" [("PMC1", "u1"), ("PMC2", "u2")]
        = "[[[PMC1]](u1)](u1), [[[PMC2]](u2)](u2)"
    ∧ _link_citations_md "[PMC1, PMC2]" [("PMC1", "u1"), ("PMC2", "u2")]
        ≠ "[[PMC1]](u1), [[PMC2]](u2)"
    ∧ _link_citations_md "[PMC1, PMC2]" [] = "[PMC1], [PMC2]" := by
  refine ⟨by decide, by decide, by decide, by decide⟩

/-- C8 (code bug): an already hyperlinked marker `[[PMC1]](u)` is excluded
from the double-bracket pass by the `(?!\()` lookahead, but the
single-bracket pass still matches its inner `[PMC1]`; when the id is in the
source map the marker is therefore rewritten again and linking is not
idempotent.  Only when the id is absent from the map is the hyperlinked
marker left unchanged. -/
theorem linked_marker_is_double_processed :
    _link_citations_md "[[PMC1]](u)" [("PMC1", "u")] = "[[[PMC1]](u)](u)"
    ∧ _link_citations_md "[[PMC1]](u)" [("PMC1", "u")] ≠ "[[PMC1]](u)"
    ∧ _link_citations_md "[PMC1]" [("PMC1", "u")] = "[[PMC1]](u)"
    ∧ _link_citations_md (_link_citations_md "[PMC1]" [("PMC1", "u")]) [("PMC1", "u")]
        ≠ _link_citations_md "[PMC1]" [("PMC1", "u")]
    ∧ _link_citations_md "[[PMC1]](u)" [] = "[[PMC1]](u)" := by
  refine ⟨by decide, by decide, by decide, by decide, by decide⟩

/-! ### Scanning lemmas: positions that cannot start a citation match -/

theorem char_ne_of_isDigit (c ch : Char) (h : c.isDigit = true) (hch : ch.isDigit = false) :
    c ≠ ch := by
  intro he
  rw [he, hch] at h
  cases h

theorem takeWhile_nil_of_head (p : Char → Bool) (l : List Char)
    (h : ∀ c, l.head? = some c → p c = false) : l.takeWhile p = [] := by
  cases l with
  | nil => rfl
  | cons c t =>
      rw [List.takeWhile_cons, h c rfl]
      rfl

theorem dropWhile_id_of_head (p : Char → Bool) (l : List Char)
    (h : ∀ c, l.head? = some c → p c = false) : l.dropWhile p = l := by
  cases l with
  | nil => rfl
  | cons c t =>
      rw [List.dropWhile_cons, h c rfl]
      rfl

theorem takeWhile_append_all (p : Char → Bool) (a b : List Char)
    (ha : ∀ c ∈ a, p c = true) (hb : ∀ c, b.head? = some c → p c = false) :
    (a ++ b).takeWhile p = a := by
  induction a with
  | nil => exact takeWhile_nil_of_head p b hb
  | cons c t ih =>
      rw [List.cons_append, List.takeWhile_cons, ha c (List.mem_cons_self c t)]
      simp only [if_true]
      rw [ih (fun x hx => ha x (List.mem_cons_of_mem c hx))]

theorem dropWhile_append_all (p : Char → Bool) (a b : List Char)
    (ha : ∀ c ∈ a, p c = true) (hb : ∀ c, b.head? = some c → p c = false) :
    (a ++ b).dropWhile p = b := by
  induction a with
  | nil => exact dropWhile_id_of_head p b hb
  | cons c t ih =>
      rw [List.cons_append, List.dropWhile_cons, ha c (List.mem_cons_self c t)]
      simp only [if_true]
      exact ih (fun x hx => ha x (List.mem_cons_of_mem c hx))

theorem pyStrip_eq_self (l : List Char)
    (h1 : ∀ c, l.head? = some c → isWs c = false)
    (h2 : ∀ c, l.getLast? = some c → isWs c = false) : pyStrip l = l := by
  rw [pyStrip, dropWhile_id_of_head isWs l h1, dropWhile_id_of_head isWs l.reverse, List.reverse_reverse]
  intro c hc
  rw [List.head?_reverse] at hc
  exact h2 c hc

theorem pyStrip_cons_ws (c : Char) (l : List Char) (h : isWs c = true) :
    pyStrip (c :: l) = pyStrip l := by
  rw [pyStrip, pyStrip, List.dropWhile_cons, h]
  rfl

theorem tryMatchSingle_not_bracket (c : Char) (t : List Char) (h : ¬ c = '[') :
    tryMatchSingle (c :: t) = none := by
  rw [tryMatchSingle, if_neg h]

theorem tryMatchDouble_not_bracket (c : Char) (t : List Char) (h : ¬ c = '[') :
    tryMatchDouble (c :: t) = none := by
  cases t with
  | nil => rfl
  | cons c1 t' =>
      rw [tryMatchDouble, if_neg (fun hh => h hh.1)]

theorem tryMatchDouble_not_bracket2 (c1 : Char) (t : List Char) (h : ¬ c1 = '[') :
    tryMatchDouble ('[' :: c1 :: t) = none := by
  rw [tryMatchDouble, if_neg (fun hh => h hh.2)]

theorem subMulti_append_no_bracket (pm : List (String × String)) (pre r : List Char)
    (h : '[' ∉ pre) : subMulti pm (pre ++ r) = pre ++ subMulti pm r := by
  induction pre with
  | nil => rfl
  | cons c t ih =>
      have hc : ¬ c = '[' := fun hh => h (hh ▸ List.mem_cons_self c t)
      rw [List.cons_append,
        subMulti_nomatch pm c (t ++ r) (tryMatchMulti_not_bracket c (t ++ r) hc),
        ih (fun hx => h (List.mem_cons_of_mem c hx)), List.cons_append]

theorem subDouble_append_no_bracket (pm : List (String × String)) (pre r : List Char)
    (h : '[' ∉ pre) : subDouble pm (pre ++ r) = pre ++ subDouble pm r := by
  induction pre with
  | nil => rfl
  | cons c t ih =>
      have hc : ¬ c = '[' := fun hh => h (hh ▸ List.mem_cons_self c t)
      rw [List.cons_append,
        subDouble_nomatch pm c (t ++ r) (tryMatchDouble_not_bracket c (t ++ r) hc),
        ih (fun hx => h (List.mem_cons_of_mem c hx)), List.cons_append]

theorem subSingle_append_no_bracket (pm : List (String × String)) (pre r : List Char)
    (h : '[' ∉ pre) : subSingle pm (pre ++ r) = pre ++ subSingle pm r := by
  induction pre with
  | nil => rfl
  | cons c t ih =>
      have hc : ¬ c = '[' := fun hh => h (hh ▸ List.mem_cons_self c t)
      rw [List.cons_append,
        subSingle_nomatch pm c (t ++ r) (tryMatchSingle_not_bracket c (t ++ r) hc),
        ih (fun hx => h (List.mem_cons_of_mem c hx)), List.cons_append]

theorem subMulti_no_bracket (pm : List (String × String)) (l : List Char)
    (h : '[' ∉ l) : subMulti pm l = l := by
  have hnil : subMulti pm [] = [] := rfl
  have := subMulti_append_no_bracket pm l [] h
  simpa [hnil] using this

theorem subDouble_no_bracket (pm : List (String × String)) (l : List Char)
    (h : '[' ∉ l) : subDouble pm l = l := by
  have hnil : subDouble pm [] = [] := rfl
  have := subDouble_append_no_bracket pm l [] h
  simpa [hnil] using this

theorem subSingle_no_bracket (pm : List (String × String)) (l : List Char)
    (h : '[' ∉ l) : subSingle pm l = l := by
  have hnil : subSingle pm [] = [] := rfl
  have := subSingle_append_no_bracket pm l [] h
  simpa [hnil] using this

/-! ### Parsing a well-formed `PMC<digits>` id -/

theorem parsePmcId_pmc_digits (ds r : List Char) (hne : ds ≠ [])
    (hds : ∀ c ∈ ds, c.isDigit = true)
    (hr : ∀ c, r.head? = some c → c.isDigit = false) :
    parsePmcId ('P' :: 'M' :: 'C' :: (ds ++ r)) = some ('P' :: 'M' :: 'C' :: ds, r) := by
  have hcond : (('P' = 'p' || 'P' = 'P') && ('M' = 'm' || 'M' = 'M')
      && ('C' = 'c' || 'C' = 'C')) = true := by decide
  rw [parsePmcId, if_pos hcond]
  have hhead : ∀ c, (ds ++ r).head? = some c → isWs c = false := by
    intro c hc
    cases ds with
    | nil => exact absurd rfl hne
    | cons d t =>
        simp only [List.cons_append, List.head?_cons, Option.some_inj] at hc
        subst hc
        exact isDigit_not_ws _ (hds _ (List.mem_cons_self _ _))
  dsimp only
  rw [takeWhile_nil_of_head isWs _ hhead, dropWhile_id_of_head isWs _ hhead,
    takeWhile_append_all Char.isDigit ds r hds hr,
    dropWhile_append_all Char.isDigit ds r hds hr, if_neg hne]
  simp

/-- `_normalize_pmcid` is the identity on a canonical `PMC<digits>` id. -/
theorem normalizePmcId_canonical (ds : List Char) (hne : ds ≠ [])
    (hds : ∀ c ∈ ds, c.isDigit = true) :
    normalizePmcId ('P' :: 'M' :: 'C' :: ds) = 'P' :: 'M' :: 'C' :: ds := by
  have h1 : ('P' :: 'M' :: 'C' :: ds).getLast? = ds.getLast? := by
    show ((['P', 'M', 'C'] : List Char) ++ ds).getLast? = ds.getLast?
    rw [List.getLast?_append]
    cases hd : ds.getLast? with
    | none => exact absurd (List.getLast?_eq_none_iff.mp hd) hne
    | some x => rfl
  have hlast : ∀ c, ('P' :: 'M' :: 'C' :: ds).getLast? = some c → isWs c = false := by
    intro c hc
    rw [h1] at hc
    obtain ⟨ys, hys⟩ := List.getLast?_eq_some_iff.mp hc
    have hmem : c ∈ ds := by
      rw [hys]
      simp
    exact isDigit_not_ws c (hds c hmem)
  have hstrip : pyStrip ('P' :: 'M' :: 'C' :: ds) = 'P' :: 'M' :: 'C' :: ds := by
    apply pyStrip_eq_self
    · intro c hc
      simp only [List.head?_cons, Option.some_inj] at hc
      subst hc
      decide
    · exact hlast
  have hmapds : ds.map Char.toUpper = ds := by
    calc ds.map Char.toUpper = ds.map id := by
          apply List.map_congr_left
          intro c hc
          exact toUpper_of_isDigit c (hds c hc)
      _ = ds := List.map_id ds
  have hupper : ('P' :: 'M' :: 'C' :: ds).map Char.toUpper = 'P' :: 'M' :: 'C' :: ds := by
    simp only [List.map_cons, hmapds]
    have hP : Char.toUpper 'P' = 'P' := by decide
    have hM : Char.toUpper 'M' = 'M' := by decide
    have hC : Char.toUpper 'C' = 'C' := by decide
    rw [hP, hM, hC]
  have hfilter : ('P' :: 'M' :: 'C' :: ds).filter (fun c => c ≠ ' ')
      = 'P' :: 'M' :: 'C' :: ds := by
    rw [List.filter_eq_self]
    intro c hc
    simp only [List.mem_cons] at hc
    rcases hc with rfl | rfl | rfl | hc
    · decide
    · decide
    · decide
    · have hne' : c ≠ ' ' := char_ne_of_isDigit c ' ' (hds c hc) (by decide)
      simp [hne']
  rw [normalizePmcId, if_neg (by simp), hstrip, hupper, hfilter]
  have htake : ('P' :: 'M' :: 'C' :: ds).take 3 = ['P', 'M', 'C'] := rfl
  rw [if_pos htake]
  have hdrop : ('P' :: 'M' :: 'C' :: ds).drop 3 = ds := rfl
  rw [hdrop, List.filter_eq_self.mpr (fun c hc => hds c hc), if_neg hne]

/-! ### Matching the three marker shapes at the head of the input -/

theorem parsePmcId_not_p (c : Char) (l : List Char) (h1 : ¬ c = 'p') (h2 : ¬ c = 'P') :
    parsePmcId (c :: l) = none := by
  match l with
  | [] => rfl
  | [x] => rfl
  | x :: y :: t =>
      rw [parsePmcId, if_neg]
      simp [h1, h2]

theorem tryMatchSingle_marker (ds post : List Char) (hne : ds ≠ [])
    (hds : ∀ c ∈ ds, c.isDigit = true) :
    tryMatchSingle ('[' :: 'P' :: 'M' :: 'C' :: (ds ++ ']' :: post)) =
      some ('P' :: 'M' :: 'C' :: ds,
        '[' :: 'P' :: 'M' :: 'C' :: (ds ++ [']']), post) := by
  have hPhead : ∀ c, ('P' :: 'M' :: 'C' :: (ds ++ ']' :: post)).head? = some c →
      isWs c = false := by
    intro c hc
    simp only [List.head?_cons, Option.some_inj] at hc
    subst hc
    decide
  have hrb : ∀ c, (']' :: post).head? = some c → c.isDigit = false := by
    intro c hc
    simp only [List.head?_cons, Option.some_inj] at hc
    subst hc
    decide
  have hclose : ∀ c, (']' :: post).head? = some c → isWs c = false := by
    intro c hc
    simp only [List.head?_cons, Option.some_inj] at hc
    subst hc
    decide
  rw [tryMatchSingle, if_pos rfl,
    dropWhile_id_of_head isWs _ hPhead,
    parsePmcId_pmc_digits ds (']' :: post) hne hds hrb]
  dsimp only
  rw [dropWhile_id_of_head isWs _ hclose]
  dsimp only
  rw [if_pos rfl, takeWhile_nil_of_head isWs _ hPhead, takeWhile_nil_of_head isWs _ hclose]
  simp

theorem tryMatchMulti_single_marker (ds post : List Char) (hne : ds ≠ [])
    (hds : ∀ c ∈ ds, c.isDigit = true) :
    tryMatchMulti ('[' :: 'P' :: 'M' :: 'C' :: (ds ++ ']' :: post)) = none := by
  have hPhead : ∀ c, ('P' :: 'M' :: 'C' :: (ds ++ ']' :: post)).head? = some c →
      isWs c = false := by
    intro c hc
    simp only [List.head?_cons, Option.some_inj] at hc
    subst hc
    decide
  have hrb : ∀ c, (']' :: post).head? = some c → c.isDigit = false := by
    intro c hc
    simp only [List.head?_cons, Option.some_inj] at hc
    subst hc
    decide
  have hclose : ∀ c, (']' :: post).head? = some c → isWs c = false := by
    intro c hc
    simp only [List.head?_cons, Option.some_inj] at hc
    subst hc
    decide
  have htail : parseIdTail (']' :: post) = none := by
    rw [parseIdTail, dropWhile_id_of_head isWs _ hclose]
    dsimp only
    rw [if_neg (by decide)]
  rw [tryMatchMulti, if_pos rfl,
    dropWhile_id_of_head isWs _ hPhead,
    parsePmcId_pmc_digits ds (']' :: post) hne hds hrb]
  dsimp only
  rw [parseMoreIds_eq_none _ htail]

theorem tryMatchDouble_single_marker (r : List Char) :
    tryMatchDouble ('[' :: 'P' :: 'M' :: 'C' :: r) = none :=
  tryMatchDouble_not_bracket2 'P' ('M' :: 'C' :: r) (by decide)

theorem tryMatchSingle_double_bracket (r : List Char) :
    tryMatchSingle ('[' :: '[' :: r) = none := by
  have hws : ∀ c, ('[' :: r).head? = some c → isWs c = false := by
    intro c hc
    simp only [List.head?_cons, Option.some_inj] at hc
    subst hc
    decide
  rw [tryMatchSingle, if_pos rfl, dropWhile_id_of_head isWs ('[' :: r) hws,
    parsePmcId_not_p '[' r (by decide) (by decide)]

theorem tryMatchMulti_double_bracket (r : List Char) :
    tryMatchMulti ('[' :: '[' :: r) = none := by
  have hws : ∀ c, ('[' :: r).head? = some c → isWs c = false := by
    intro c hc
    simp only [List.head?_cons, Option.some_inj] at hc
    subst hc
    decide
  rw [tryMatchMulti, if_pos rfl, dropWhile_id_of_head isWs ('[' :: r) hws,
    parsePmcId_not_p '[' r (by decide) (by decide)]

theorem parseIdTail_rbracket (post : List Char) : parseIdTail (']' :: post) = none := by
  have hclose : ∀ c, (']' :: post).head? = some c → isWs c = false := by
    intro c hc
    simp only [List.head?_cons, Option.some_inj] at hc
    subst hc
    decide
  rw [parseIdTail, dropWhile_id_of_head isWs _ hclose]
  dsimp only
  rw [if_neg (by decide)]

theorem tryMatchDouble_marker (ds post : List Char) (hne : ds ≠ [])
    (hds : ∀ c ∈ ds, c.isDigit = true) (hpar : ¬ post.head? = some '(') :
    tryMatchDouble ('[' :: '[' :: 'P' :: 'M' :: 'C' :: (ds ++ ']' :: ']' :: post)) =
      some ('P' :: 'M' :: 'C' :: ds,
        '[' :: '[' :: ('P' :: 'M' :: 'C' :: (ds ++ [']', ']'])), post) := by
  have hPhead : ∀ c, ('P' :: 'M' :: 'C' :: (ds ++ ']' :: ']' :: post)).head? = some c →
      isWs c = false := by
    intro c hc
    simp only [List.head?_cons, Option.some_inj] at hc
    subst hc
    decide
  have hrb : ∀ c, (']' :: ']' :: post).head? = some c → c.isDigit = false := by
    intro c hc
    simp only [List.head?_cons, Option.some_inj] at hc
    subst hc
    decide
  have hclose : ∀ c, (']' :: ']' :: post).head? = some c → isWs c = false := by
    intro c hc
    simp only [List.head?_cons, Option.some_inj] at hc
    subst hc
    decide
  rw [tryMatchDouble, if_pos ⟨rfl, rfl⟩,
    dropWhile_id_of_head isWs _ hPhead,
    parsePmcId_pmc_digits ds (']' :: ']' :: post) hne hds hrb]
  dsimp only
  rw [dropWhile_id_of_head isWs _ hclose]
  dsimp only
  rw [if_pos ⟨rfl, rfl⟩, if_neg hpar,
    takeWhile_nil_of_head isWs _ hPhead, takeWhile_nil_of_head isWs _ hclose]
  simp

theorem tryMatchDouble_marker_linked (ds post : List Char) (hne : ds ≠ [])
    (hds : ∀ c ∈ ds, c.isDigit = true) (hpar : post.head? = some '(') :
    tryMatchDouble ('[' :: '[' :: 'P' :: 'M' :: 'C' :: (ds ++ ']' :: ']' :: post)) = none := by
  have hPhead : ∀ c, ('P' :: 'M' :: 'C' :: (ds ++ ']' :: ']' :: post)).head? = some c →
      isWs c = false := by
    intro c hc
    simp only [List.head?_cons, Option.some_inj] at hc
    subst hc
    decide
  have hrb : ∀ c, (']' :: ']' :: post).head? = some c → c.isDigit = false := by
    intro c hc
    simp only [List.head?_cons, Option.some_inj] at hc
    subst hc
    decide
  have hclose : ∀ c, (']' :: ']' :: post).head? = some c → isWs c = false := by
    intro c hc
    simp only [List.head?_cons, Option.some_inj] at hc
    subst hc
    decide
  rw [tryMatchDouble, if_pos ⟨rfl, rfl⟩,
    dropWhile_id_of_head isWs _ hPhead,
    parsePmcId_pmc_digits ds (']' :: ']' :: post) hne hds hrb]
  dsimp only
  rw [dropWhile_id_of_head isWs _ hclose]
  dsimp only
  rw [if_pos ⟨rfl, rfl⟩, if_pos hpar]

theorem tryMatchMulti_multi_marker (d1 d2 post : List Char)
    (hne1 : d1 ≠ []) (hds1 : ∀ c ∈ d1, c.isDigit = true)
    (hne2 : d2 ≠ []) (hds2 : ∀ c ∈ d2, c.isDigit = true) :
    tryMatchMulti ('[' :: 'P' :: 'M' :: 'C' ::
        (d1 ++ ',' :: ' ' :: ('P' :: 'M' :: 'C' :: (d2 ++ ']' :: post)))) =
      some (('P' :: 'M' :: 'C' :: d1) ++ ',' :: ' ' :: ('P' :: 'M' :: 'C' :: d2), post) := by
  have hPhead : ∀ x : List Char, ∀ c,
      ('P' :: 'M' :: 'C' :: x).head? = some c → isWs c = false := by
    intro x c hc
    simp only [List.head?_cons, Option.some_inj] at hc
    subst hc
    decide
  have hcomma : ∀ c, (',' :: ' ' :: ('P' :: 'M' :: 'C' :: (d2 ++ ']' :: post))).head? = some c →
      c.isDigit = false := by
    intro c hc
    simp only [List.head?_cons, Option.some_inj] at hc
    subst hc
    decide
  have hcommaws : ∀ c, (',' :: ' ' :: ('P' :: 'M' :: 'C' :: (d2 ++ ']' :: post))).head? = some c →
      isWs c = false := by
    intro c hc
    simp only [List.head?_cons, Option.some_inj] at hc
    subst hc
    decide
  have hrb : ∀ c, (']' :: post).head? = some c → c.isDigit = false := by
    intro c hc
    simp only [List.head?_cons, Option.some_inj] at hc
    subst hc
    decide
  have hclose : ∀ c, (']' :: post).head? = some c → isWs c = false := by
    intro c hc
    simp only [List.head?_cons, Option.some_inj] at hc
    subst hc
    decide
  have htail : parseIdTail (',' :: ' ' :: ('P' :: 'M' :: 'C' :: (d2 ++ ']' :: post))) =
      some (',' :: ' ' :: ('P' :: 'M' :: 'C' :: d2), ']' :: post) := by
    rw [parseIdTail, dropWhile_id_of_head isWs _ hcommaws]
    dsimp only
    rw [if_pos rfl]
    have h1 : List.dropWhile isWs (' ' :: ('P' :: 'M' :: 'C' :: (d2 ++ ']' :: post)))
        = 'P' :: 'M' :: 'C' :: (d2 ++ ']' :: post) := by
      rw [List.dropWhile_cons]
      have : isWs ' ' = true := by decide
      rw [this]
      simp only [if_true]
      exact dropWhile_id_of_head isWs _ (hPhead _)
    have h2 : List.takeWhile isWs (' ' :: ('P' :: 'M' :: 'C' :: (d2 ++ ']' :: post))) = [' '] := by
      rw [List.takeWhile_cons]
      have : isWs ' ' = true := by decide
      rw [this]
      simp only [if_true]
      rw [takeWhile_nil_of_head isWs _ (hPhead _)]
    rw [h1, parsePmcId_pmc_digits d2 (']' :: post) hne2 hds2 hrb]
    dsimp only
    rw [takeWhile_nil_of_head isWs _ hcommaws, h2]
    simp
  rw [tryMatchMulti, if_pos rfl,
    dropWhile_id_of_head isWs _ (hPhead _),
    parsePmcId_pmc_digits d1 _ hne1 hds1 hcomma]
  dsimp only
  rw [parseMoreIds_eq_some _ _ _ htail, parseMoreIds_eq_none _ (parseIdTail_rbracket post)]
  dsimp only
  rw [dropWhile_id_of_head isWs _ hclose]
  dsimp only
  rw [if_pos rfl]
  simp

/-! ### Evaluating `repl_multi` on a two-id group with unresolvable ids -/

theorem splitOnComma_no_comma (l : List Char) (h : ',' ∉ l) : splitOnComma l = [l] := by
  induction l with
  | nil => rfl
  | cons c t ih =>
      have hc : ¬ c = ',' := fun hh => h (hh ▸ List.mem_cons_self c t)
      rw [splitOnComma, if_neg hc, ih (fun hx => h (List.mem_cons_of_mem c hx))]

theorem splitOnComma_append (a b : List Char) (h : ',' ∉ a) :
    splitOnComma (a ++ ',' :: b) = a :: splitOnComma b := by
  induction a with
  | nil =>
      show splitOnComma (',' :: b) = [] :: splitOnComma b
      rw [splitOnComma, if_pos rfl]
  | cons c t ih =>
      have hc : ¬ c = ',' := fun hh => h (hh ▸ List.mem_cons_self c t)
      rw [List.cons_append, splitOnComma, if_neg hc,
        ih (fun hx => h (List.mem_cons_of_mem c hx))]

theorem comma_not_mem_canonical (ds : List Char) (hds : ∀ c ∈ ds, c.isDigit = true) :
    ',' ∉ ('P' :: 'M' :: 'C' :: ds) := by
  intro hmem
  simp only [List.mem_cons] at hmem
  rcases hmem with h | h | h | h
  · cases h
  · cases h
  · cases h
  · exact char_ne_of_isDigit ',' ',' (hds ',' h) (by decide) rfl

theorem pyStrip_canonical (ds : List Char) (hne : ds ≠ [])
    (hds : ∀ c ∈ ds, c.isDigit = true) :
    pyStrip ('P' :: 'M' :: 'C' :: ds) = 'P' :: 'M' :: 'C' :: ds := by
  have h1 : ('P' :: 'M' :: 'C' :: ds).getLast? = ds.getLast? := by
    show ((['P', 'M', 'C'] : List Char) ++ ds).getLast? = ds.getLast?
    rw [List.getLast?_append]
    cases hd : ds.getLast? with
    | none => exact absurd (List.getLast?_eq_none_iff.mp hd) hne
    | some x => rfl
  apply pyStrip_eq_self
  · intro c hc
    simp only [List.head?_cons, Option.some_inj] at hc
    subst hc
    decide
  · intro c hc
    rw [h1] at hc
    obtain ⟨ys, hys⟩ := List.getLast?_eq_some_iff.mp hc
    have hmem : c ∈ ds := by
      rw [hys]
      simp
    exact isDigit_not_ws c (hds c hmem)

theorem linkify_unknown (pm : List (String × String)) (t : List Char)
    (h : List.lookup (normalizePmcId t).asString pm = none) :
    linkify pm t = '[' :: (t ++ [']']) := by
  rw [linkify]
  rw [h]

theorem intercalate_two (s a b : List Char) : List.intercalate s [a, b] = a ++ s ++ b := by
  simp [List.intercalate, List.intersperse]

theorem replMulti_two_unknown (pm : List (String × String)) (d1 d2 : List Char)
    (hne1 : d1 ≠ []) (hds1 : ∀ c ∈ d1, c.isDigit = true)
    (hne2 : d2 ≠ []) (hds2 : ∀ c ∈ d2, c.isDigit = true)
    (hl1 : List.lookup ('P' :: 'M' :: 'C' :: d1).asString pm = none)
    (hl2 : List.lookup ('P' :: 'M' :: 'C' :: d2).asString pm = none) :
    replMulti pm (('P' :: 'M' :: 'C' :: d1) ++ ',' :: ' ' :: ('P' :: 'M' :: 'C' :: d2)) =
      ('[' :: ('P' :: 'M' :: 'C' :: d1) ++ [']']) ++
        ',' :: ' ' :: ('[' :: ('P' :: 'M' :: 'C' :: d2) ++ [']']) := by
  rw [replMulti]
  rw [splitOnComma_append _ _ (comma_not_mem_canonical d1 hds1),
    splitOnComma_no_comma _ (fun hmem => by
      rcases List.mem_cons.mp hmem with h | h
      · cases h
      · exact comma_not_mem_canonical d2 hds2 h)]
  simp only [List.map_cons, List.map_nil]
  rw [pyStrip_canonical d1 hne1 hds1, pyStrip_cons_ws ' ' _ (by decide),
    pyStrip_canonical d2 hne2 hds2]
  have hf : (['P' :: 'M' :: 'C' :: d1, 'P' :: 'M' :: 'C' :: d2] :
      List (List Char)).filter (fun t => t ≠ []) =
      ['P' :: 'M' :: 'C' :: d1, 'P' :: 'M' :: 'C' :: d2] := by
    rw [List.filter_eq_self]
    intro a ha
    simp only [List.mem_cons] at ha
    rcases ha with rfl | rfl | h
    · simp
    · simp
    · cases h
  rw [hf]
  simp only [List.map_cons, List.map_nil]
  rw [linkify_unknown pm _ (by rw [normalizePmcId_canonical d1 hne1 hds1]; exact hl1),
    linkify_unknown pm _ (by rw [normalizePmcId_canonical d2 hne2 hds2]; exact hl2),
    intercalate_two]
  simp

theorem replBracket_unknown (pm : List (String × String)) (g g0 : List Char)
    (h : List.lookup (normalizePmcId g).asString pm = none) :
    replBracket pm g g0 = g0 := by
  rw [replBracket]
  rw [h]

theorem not_mem_canonical (ds : List Char) (hds : ∀ c ∈ ds, c.isDigit = true)
    (ch : Char) (h1 : ch ≠ 'P') (h2 : ch ≠ 'M') (h3 : ch ≠ 'C')
    (hch : ch.isDigit = false) : ch ∉ ('P' :: 'M' :: 'C' :: ds) := by
  intro hmem
  simp only [List.mem_cons] at hmem
  rcases hmem with h | h | h | h
  · exact h1 h
  · exact h2 h
  · exact h3 h
  · rw [hds ch h] at hch
    cases hch

theorem bracket_not_mem_body1 (ds post : List Char)
    (hds : ∀ c ∈ ds, c.isDigit = true) (hpost : '[' ∉ post) :
    '[' ∉ ('P' :: 'M' :: 'C' :: (ds ++ ']' :: post)) := by
  intro hmem
  simp only [List.mem_cons, List.mem_append] at hmem
  rcases hmem with h | h | h | h | h | h
  · exact absurd h (by decide)
  · exact absurd h (by decide)
  · exact absurd h (by decide)
  · have := hds _ h
    exact absurd this (by decide)
  · exact absurd h (by decide)
  · exact hpost h

theorem bracket_not_mem_close (post : List Char) (hpost : '[' ∉ post) :
    '[' ∉ (']' :: post) := by
  intro hmem
  rcases List.mem_cons.mp hmem with h | h
  · exact absurd h (by decide)
  · exact hpost h

/-! ### The three passes on each of the three marker shapes with unknown ids -/

theorem subMulti_marker1 (pm : List (String × String)) (ds post : List Char)
    (hne : ds ≠ []) (hds : ∀ c ∈ ds, c.isDigit = true) (hpost : '[' ∉ post) :
    subMulti pm ('[' :: 'P' :: 'M' :: 'C' :: (ds ++ ']' :: post)) =
      '[' :: 'P' :: 'M' :: 'C' :: (ds ++ ']' :: post) := by
  rw [subMulti_nomatch pm _ _ (tryMatchMulti_single_marker ds post hne hds),
    subMulti_no_bracket pm _ (bracket_not_mem_body1 ds post hds hpost)]

theorem subDouble_marker1 (pm : List (String × String)) (ds post : List Char)
    (hds : ∀ c ∈ ds, c.isDigit = true) (hpost : '[' ∉ post) :
    subDouble pm ('[' :: 'P' :: 'M' :: 'C' :: (ds ++ ']' :: post)) =
      '[' :: 'P' :: 'M' :: 'C' :: (ds ++ ']' :: post) := by
  rw [subDouble_nomatch pm _ _ (tryMatchDouble_single_marker _),
    subDouble_no_bracket pm _ (bracket_not_mem_body1 ds post hds hpost)]

theorem subSingle_marker1 (pm : List (String × String)) (ds post : List Char)
    (hne : ds ≠ []) (hds : ∀ c ∈ ds, c.isDigit = true) (hpost : '[' ∉ post)
    (hl : List.lookup ('P' :: 'M' :: 'C' :: ds).asString pm = none) :
    subSingle pm ('[' :: 'P' :: 'M' :: 'C' :: (ds ++ ']' :: post)) =
      '[' :: 'P' :: 'M' :: 'C' :: (ds ++ ']' :: post) := by
  rw [subSingle_match pm _ _ _ _ _ (tryMatchSingle_marker ds post hne hds),
    replBracket_unknown pm _ _ (by rw [normalizePmcId_canonical ds hne hds]; exact hl),
    subSingle_no_bracket pm post hpost]
  simp

theorem link_passes_marker1 (pm : List (String × String)) (pre ds post : List Char)
    (hpre : '[' ∉ pre) (hne : ds ≠ []) (hds : ∀ c ∈ ds, c.isDigit = true)
    (hpost : '[' ∉ post)
    (hl : List.lookup ('P' :: 'M' :: 'C' :: ds).asString pm = none) :
    subSingle pm (subDouble pm (subMulti pm
        (pre ++ '[' :: 'P' :: 'M' :: 'C' :: (ds ++ ']' :: post)))) =
      pre ++ '[' :: 'P' :: 'M' :: 'C' :: (ds ++ ']' :: post) := by
  rw [subMulti_append_no_bracket pm pre _ hpre, subMulti_marker1 pm ds post hne hds hpost,
    subDouble_append_no_bracket pm pre _ hpre, subDouble_marker1 pm ds post hds hpost,
    subSingle_append_no_bracket pm pre _ hpre, subSingle_marker1 pm ds post hne hds hpost hl]

theorem subMulti_marker2 (pm : List (String × String)) (ds post : List Char)
    (hne : ds ≠ []) (hds : ∀ c ∈ ds, c.isDigit = true) (hpost : '[' ∉ post) :
    subMulti pm ('[' :: '[' :: 'P' :: 'M' :: 'C' :: (ds ++ ']' :: ']' :: post)) =
      '[' :: '[' :: 'P' :: 'M' :: 'C' :: (ds ++ ']' :: ']' :: post) := by
  rw [subMulti_nomatch pm _ _ (tryMatchMulti_double_bracket _),
    subMulti_nomatch pm _ _ (tryMatchMulti_single_marker ds (']' :: post) hne hds),
    subMulti_no_bracket pm _
      (bracket_not_mem_body1 ds (']' :: post) hds (bracket_not_mem_close post hpost))]

theorem subDouble_marker2 (pm : List (String × String)) (ds post : List Char)
    (hne : ds ≠ []) (hds : ∀ c ∈ ds, c.isDigit = true) (hpost : '[' ∉ post)
    (hl : List.lookup ('P' :: 'M' :: 'C' :: ds).asString pm = none) :
    subDouble pm ('[' :: '[' :: 'P' :: 'M' :: 'C' :: (ds ++ ']' :: ']' :: post)) =
      '[' :: '[' :: 'P' :: 'M' :: 'C' :: (ds ++ ']' :: ']' :: post) := by
  by_cases hpar : post.head? = some '('
  · rw [subDouble_nomatch pm _ _ (tryMatchDouble_marker_linked ds post hne hds hpar),
      subDouble_nomatch pm _ _ (tryMatchDouble_single_marker _),
      subDouble_no_bracket pm _
        (bracket_not_mem_body1 ds (']' :: post) hds (bracket_not_mem_close post hpost))]
  · rw [subDouble_match pm _ _ _ _ _ (tryMatchDouble_marker ds post hne hds hpar),
      replBracket_unknown pm _ _ (by rw [normalizePmcId_canonical ds hne hds]; exact hl),
      subDouble_no_bracket pm post hpost]
    simp

theorem subSingle_marker2 (pm : List (String × String)) (ds post : List Char)
    (hne : ds ≠ []) (hds : ∀ c ∈ ds, c.isDigit = true) (hpost : '[' ∉ post)
    (hl : List.lookup ('P' :: 'M' :: 'C' :: ds).asString pm = none) :
    subSingle pm ('[' :: '[' :: 'P' :: 'M' :: 'C' :: (ds ++ ']' :: ']' :: post)) =
      '[' :: '[' :: 'P' :: 'M' :: 'C' :: (ds ++ ']' :: ']' :: post) := by
  rw [subSingle_nomatch pm _ _ (tryMatchSingle_double_bracket _),
    subSingle_match pm _ _ _ _ _ (tryMatchSingle_marker ds (']' :: post) hne hds),
    replBracket_unknown pm _ _ (by rw [normalizePmcId_canonical ds hne hds]; exact hl),
    subSingle_no_bracket pm (']' :: post) (bracket_not_mem_close post hpost)]
  simp

theorem link_passes_marker2 (pm : List (String × String)) (pre ds post : List Char)
    (hpre : '[' ∉ pre) (hne : ds ≠ []) (hds : ∀ c ∈ ds, c.isDigit = true)
    (hpost : '[' ∉ post)
    (hl : List.lookup ('P' :: 'M' :: 'C' :: ds).asString pm = none) :
    subSingle pm (subDouble pm (subMulti pm
        (pre ++ '[' :: '[' :: 'P' :: 'M' :: 'C' :: (ds ++ ']' :: ']' :: post)))) =
      pre ++ '[' :: '[' :: 'P' :: 'M' :: 'C' :: (ds ++ ']' :: ']' :: post) := by
  rw [subMulti_append_no_bracket pm pre _ hpre, subMulti_marker2 pm ds post hne hds hpost,
    subDouble_append_no_bracket pm pre _ hpre, subDouble_marker2 pm ds post hne hds hpost hl,
    subSingle_append_no_bracket pm pre _ hpre, subSingle_marker2 pm ds post hne hds hpost hl]

theorem bracket_not_mem_mid (d1 : List Char) (hds1 : ∀ c ∈ d1, c.isDigit = true) :
    '[' ∉ ('P' :: 'M' :: 'C' :: (d1 ++ [']', ',', ' '])) := by
  intro hmem
  simp only [List.mem_cons, List.mem_append] at hmem
  rcases hmem with h | h | h | h | h | h | h | h
  · exact absurd h (by decide)
  · exact absurd h (by decide)
  · exact absurd h (by decide)
  · have := hds1 _ h
    exact absurd this (by decide)
  · exact absurd h (by decide)
  · exact absurd h (by decide)
  · exact absurd h (by decide)
  · exact (List.not_mem_nil '[') h

theorem subMulti_marker3 (pm : List (String × String)) (d1 d2 post : List Char)
    (hne1 : d1 ≠ []) (hds1 : ∀ c ∈ d1, c.isDigit = true)
    (hne2 : d2 ≠ []) (hds2 : ∀ c ∈ d2, c.isDigit = true) (hpost : '[' ∉ post)
    (hl1 : List.lookup ('P' :: 'M' :: 'C' :: d1).asString pm = none)
    (hl2 : List.lookup ('P' :: 'M' :: 'C' :: d2).asString pm = none) :
    subMulti pm ('[' :: 'P' :: 'M' :: 'C' ::
        (d1 ++ ',' :: ' ' :: ('P' :: 'M' :: 'C' :: (d2 ++ ']' :: post)))) =
      '[' :: 'P' :: 'M' :: 'C' ::
        (d1 ++ ']' :: ',' :: ' ' :: ('[' :: 'P' :: 'M' :: 'C' :: (d2 ++ ']' :: post))) := by
  rw [subMulti_match pm _ _ _ _
      (tryMatchMulti_multi_marker d1 d2 post hne1 hds1 hne2 hds2),
    replMulti_two_unknown pm d1 d2 hne1 hds1 hne2 hds2 hl1 hl2,
    subMulti_no_bracket pm post hpost]
  simp

theorem subDouble_split (pm : List (String × String)) (d1 d2 post : List Char)
    (hds1 : ∀ c ∈ d1, c.isDigit = true)
    (hds2 : ∀ c ∈ d2, c.isDigit = true) (hpost : '[' ∉ post) :
    subDouble pm ('[' :: 'P' :: 'M' :: 'C' ::
        (d1 ++ ']' :: ',' :: ' ' :: ('[' :: 'P' :: 'M' :: 'C' :: (d2 ++ ']' :: post)))) =
      '[' :: 'P' :: 'M' :: 'C' ::
        (d1 ++ ']' :: ',' :: ' ' :: ('[' :: 'P' :: 'M' :: 'C' :: (d2 ++ ']' :: post))) := by
  rw [subDouble_nomatch pm _ _ (tryMatchDouble_single_marker _)]
  have e1 : ('P' :: 'M' :: 'C' ::
      (d1 ++ ']' :: ',' :: ' ' :: ('[' :: 'P' :: 'M' :: 'C' :: (d2 ++ ']' :: post)))) =
      ('P' :: 'M' :: 'C' :: (d1 ++ [']', ',', ' '])) ++
        ('[' :: 'P' :: 'M' :: 'C' :: (d2 ++ ']' :: post)) := by
    simp
  rw [e1, subDouble_append_no_bracket pm _ _ (bracket_not_mem_mid d1 hds1),
    subDouble_nomatch pm _ _ (tryMatchDouble_single_marker _),
    subDouble_no_bracket pm _ (bracket_not_mem_body1 d2 post hds2 hpost)]

theorem subSingle_split (pm : List (String × String)) (d1 d2 post : List Char)
    (hne1 : d1 ≠ []) (hds1 : ∀ c ∈ d1, c.isDigit = true)
    (hne2 : d2 ≠ []) (hds2 : ∀ c ∈ d2, c.isDigit = true) (hpost : '[' ∉ post)
    (hl1 : List.lookup ('P' :: 'M' :: 'C' :: d1).asString pm = none)
    (hl2 : List.lookup ('P' :: 'M' :: 'C' :: d2).asString pm = none) :
    subSingle pm ('[' :: 'P' :: 'M' :: 'C' ::
        (d1 ++ ']' :: ',' :: ' ' :: ('[' :: 'P' :: 'M' :: 'C' :: (d2 ++ ']' :: post)))) =
      '[' :: 'P' :: 'M' :: 'C' ::
        (d1 ++ ']' :: ',' :: ' ' :: ('[' :: 'P' :: 'M' :: 'C' :: (d2 ++ ']' :: post))) := by
  rw [subSingle_match pm _ _ _ _ _ (tryMatchSingle_marker d1 _ hne1 hds1),
    replBracket_unknown pm _ _ (by rw [normalizePmcId_canonical d1 hne1 hds1]; exact hl1)]
  have e2 : (',' :: ' ' :: ('[' :: 'P' :: 'M' :: 'C' :: (d2 ++ ']' :: post))) =
      ([',', ' '] : List Char) ++ ('[' :: 'P' :: 'M' :: 'C' :: (d2 ++ ']' :: post)) := rfl
  rw [e2, subSingle_append_no_bracket pm _ _ (by decide),
    subSingle_marker1 pm d2 post hne2 hds2 hpost hl2]
  simp

theorem link_passes_marker3 (pm : List (String × String)) (pre d1 d2 post : List Char)
    (hpre : '[' ∉ pre)
    (hne1 : d1 ≠ []) (hds1 : ∀ c ∈ d1, c.isDigit = true)
    (hne2 : d2 ≠ []) (hds2 : ∀ c ∈ d2, c.isDigit = true) (hpost : '[' ∉ post)
    (hl1 : List.lookup ('P' :: 'M' :: 'C' :: d1).asString pm = none)
    (hl2 : List.lookup ('P' :: 'M' :: 'C' :: d2).asString pm = none) :
    subSingle pm (subDouble pm (subMulti pm (pre ++ '[' :: 'P' :: 'M' :: 'C' ::
        (d1 ++ ',' :: ' ' :: ('P' :: 'M' :: 'C' :: (d2 ++ ']' :: post)))))) =
      pre ++ '[' :: 'P' :: 'M' :: 'C' ::
        (d1 ++ ']' :: ',' :: ' ' :: ('[' :: 'P' :: 'M' :: 'C' :: (d2 ++ ']' :: post))) := by
  rw [subMulti_append_no_bracket pm pre _ hpre,
    subMulti_marker3 pm d1 d2 post hne1 hds1 hne2 hds2 hpost hl1 hl2,
    subDouble_append_no_bracket pm pre _ hpre,
    subDouble_split pm d1 d2 post hds1 hds2 hpost,
    subSingle_append_no_bracket pm pre _ hpre,
    subSingle_split pm d1 d2 post hne1 hds1 hne2 hds2 hpost hl1 hl2]

theorem asString_toList (l : List Char) : (l.asString).toList = l := rfl

theorem asString_ne_empty (l : List Char) (h : l ≠ []) : l.asString ≠ "" := by
  intro he
  apply h
  have h2 := congrArg String.toList he
  rw [asString_toList] at h2
  exact h2

/-- C9: a recognized citation marker whose normalized id is not in the
source map is never dropped by `_link_citations_md`.  For every context
`pre`/`post` free of `[` and every well-formed id `PMC<d1>` absent from the
map: a single-bracket marker and a (non-hyperlinked) double-bracket marker
are left verbatim, and for a multi-bracket marker `[PMCd1, PMCd2]` with
both ids unresolvable each id is kept in the output as its own unlinked
single-bracket marker `[PMCd1], [PMCd2]` — the ids survive unlinked, they
are not silently dropped. -/
theorem unresolved_ids_left_as_unlinked_markers
    (pm : List (String × String)) (pre post d1 d2 : List Char)
    (hpre : '[' ∉ pre) (hpost : '[' ∉ post)
    (hne1 : d1 ≠ []) (hds1 : ∀ c ∈ d1, c.isDigit = true)
    (hne2 : d2 ≠ []) (hds2 : ∀ c ∈ d2, c.isDigit = true)
    (hl1 : List.lookup ('P' :: 'M' :: 'C' :: d1).asString pm = none)
    (hl2 : List.lookup ('P' :: 'M' :: 'C' :: d2).asString pm = none) :
    _link_citations_md ((pre ++ '[' :: 'P' :: 'M' :: 'C' ::
          (d1 ++ ']' :: post)).asString) pm
        = (pre ++ '[' :: 'P' :: 'M' :: 'C' :: (d1 ++ ']' :: post)).asString
    ∧ _link_citations_md ((pre ++ '[' :: '[' :: 'P' :: 'M' :: 'C' ::
          (d1 ++ ']' :: ']' :: post)).asString) pm
        = (pre ++ '[' :: '[' :: 'P' :: 'M' :: 'C' :: (d1 ++ ']' :: ']' :: post)).asString
    ∧ _link_citations_md ((pre ++ '[' :: 'P' :: 'M' :: 'C' ::
          (d1 ++ ',' :: ' ' :: ('P' :: 'M' :: 'C' :: (d2 ++ ']' :: post)))).asString) pm
        = (pre ++ '[' :: 'P' :: 'M' :: 'C' ::
            (d1 ++ ']' :: ',' :: ' ' ::
              ('[' :: 'P' :: 'M' :: 'C' :: (d2 ++ ']' :: post)))).asString := by
  refine ⟨?_, ?_, ?_⟩
  · have hk : (pre ++ '[' :: 'P' :: 'M' :: 'C' :: (d1 ++ ']' :: post)).asString ≠ "" :=
      asString_ne_empty _ (by simp)
    rw [_link_citations_md, if_neg hk, asString_toList,
      link_passes_marker1 pm pre d1 post hpre hne1 hds1 hpost hl1]
  · have hk : (pre ++ '[' :: '[' :: 'P' :: 'M' :: 'C' ::
        (d1 ++ ']' :: ']' :: post)).asString ≠ "" :=
      asString_ne_empty _ (by simp)
    rw [_link_citations_md, if_neg hk, asString_toList,
      link_passes_marker2 pm pre d1 post hpre hne1 hds1 hpost hl1]
  · have hk : (pre ++ '[' :: 'P' :: 'M' :: 'C' ::
        (d1 ++ ',' :: ' ' :: ('P' :: 'M' :: 'C' :: (d2 ++ ']' :: post)))).asString ≠ "" :=
      asString_ne_empty _ (by simp)
    rw [_link_citations_md, if_neg hk, asString_toList,
      link_passes_marker3 pm pre d1 d2 post hpre hne1 hds1 hne2 hds2 hpost hl1 hl2]

/-- Witness for `unresolved_ids_left_as_unlinked_markers` at a concrete
context, ids and source map. -/
theorem unresolved_ids_left_as_unlinked_markers_witness :
    ('[' ∉ ("see " : String).toList) ∧ ('[' ∉ (" end" : String).toList)
    ∧ _link_citations_md "see [PMC7] end" [("PMC9", "u9")] = "see [PMC7] end"
    ∧ _link_citations_md "see [[PMC7]] end" [("PMC9", "u9")] = "see [[PMC7]] end"
    ∧ _link_citations_md "see [PMC7, PMC8] end" [("PMC9", "u9")]
        = "see [PMC7], [PMC8] end" := by
  have h := unresolved_ids_left_as_unlinked_markers [("PMC9", "u9")]
    ("see " : String).toList (" end" : String).toList ['7'] ['8']
    (by decide) (by decide) (by decide) (by decide) (by decide) (by decide)
    (by decide) (by decide)
  exact ⟨by decide, by decide, h.1, h.2.1, h.2.2⟩

/-! ### Figure utilities (backend/rag/query_figure_utils.py)

Figure metadata records (the per-`pmcid` figure objects that
`_load_meta_fig_index` reads from `meta.jsonl`) are supplied as data
(`metaFigs : String → List FigObj` plays the role of the cached
`pmcid -> [figure_objs]` mapping). -/

structure ImageRef where
  url : String
  filename : String
deriving DecidableEq, Repr

/-- One figure object `{id, label, caption, tileshop, images}`;
`label` is already coerced with `or ""` as in `_load_meta_fig_index`. -/
structure FigObj where
  id : Option String
  label : String
  caption : Option String
  tileshop : Option String
  images : List ImageRef
deriving DecidableEq, Repr

/-- `_norm_token`: strip, unify dash variants to `-`, uppercase. -/
def normToken (l : List Char) : List Char :=
  ((pyStrip l).map (fun c => if c = '–' ∨ c = '—' then '-' else c)).map Char.toUpper

/-- Python `\w` (word character) on the ASCII range. -/
def isWordChar (c : Char) : Bool := c.isAlphanum || c = '_'

/-- The token class `[0-9A-Za-z\-–—\.]` of `FIG_NUM_RE`. -/
def isTokChar (c : Char) : Bool :=
  c.isAlphanum || c = '-' || c = '.' || c = '–' || c = '—'

/-- The optional `(?:ure)?` after `Fig` (case-insensitive). -/
def consumeUre (l : List Char) : List Char :=
  match l with
  | u :: r :: e :: t =>
      if (u = 'u' || u = 'U') && (r = 'r' || r = 'R') && (e = 'e' || e = 'E') then t else l
  | _ => l

/-- Word-boundary test `\b` between the previous character and `Fig`. -/
def boundaryOk (prev : Option Char) : Bool :=
  match prev with
  | none => true
  | some p => !isWordChar p

/-- Case-insensitive `Fig` prefix. -/
def isFigStart (f i g : Char) : Bool :=
  (f = 'f' || f = 'F') && (i = 'i' || i = 'I') && (g = 'g' || g = 'G')

/-- The optional `\.?` after `Fig(?:ure)?`. -/
def dropDot : List Char → List Char
  | [] => []
  | c :: t => if c = '.' then t else c :: t

theorem consumeUre_le (l : List Char) : (consumeUre l).length ≤ l.length := by
  match l with
  | [] => exact le_refl _
  | [x] => exact le_refl _
  | [x, y] => exact le_refl _
  | u :: r :: e :: t =>
      rw [consumeUre]
      by_cases h : ((u = 'u' || u = 'U') && (r = 'r' || r = 'R') && (e = 'e' || e = 'E')) = true
      · rw [if_pos h]
        simp only [List.length_cons]
        omega
      · rw [if_neg h]

theorem dropDot_le (l : List Char) : (dropDot l).length ≤ l.length := by
  match l with
  | [] => exact le_refl _
  | c :: t =>
      rw [dropDot]
      by_cases h : c = '.'
      · rw [if_pos h]
        simp
      · rw [if_neg h]

/-- `FIG_NUM_RE = r'\b(?:Fig(?:ure)?\.?)\s+([0-9A-Za-z\-–—\.]+)'`
matched at the current position (`prev` is the character before it, for the
word boundary `\b`); returns `(group(1), rest-after-match)`.  As with the
citation patterns, every quantified piece is followed by a disjoint
character class, so greedy matching is deterministic. -/
def parseFigAt (prev : Option Char) : List Char → Option (List Char × List Char)
  | f :: i :: g :: r0 =>
      if boundaryOk prev = true then
        if isFigStart f i g = true then
          let r2 := dropDot (consumeUre r0)
          if r2.takeWhile isWs = [] then none
          else
            let r3 := r2.dropWhile isWs
            let tok := r3.takeWhile isTokChar
            if tok = [] then none else some (tok, r3.dropWhile isTokChar)
        else none
      else none
  | _ => none

theorem parseFigAt_rest_lt (prev : Option Char) (l tok rest : List Char)
    (h : parseFigAt prev l = some (tok, rest)) : rest.length < l.length := by
  match l with
  | [] => exact absurd h (by simp [parseFigAt])
  | [x] => exact absurd h (by simp [parseFigAt])
  | [x, y] => exact absurd h (by simp [parseFigAt])
  | f :: i :: g :: r0 =>
      rw [parseFigAt] at h
      by_cases hb : boundaryOk prev = true
      · rw [if_pos hb] at h
        by_cases hf : isFigStart f i g = true
        · rw [if_pos hf] at h
          set r2 := dropDot (consumeUre r0) with hr2
          by_cases hws : r2.takeWhile isWs = []
          · rw [if_pos hws] at h
            exact absurd h (by simp)
          · rw [if_neg hws] at h
            by_cases htok : (r2.dropWhile isWs).takeWhile isTokChar = []
            · rw [if_pos htok] at h
              exact absurd h (by simp)
            · rw [if_neg htok] at h
              have hrest : rest = (r2.dropWhile isWs).dropWhile isTokChar :=
                (congrArg Prod.snd (Option.some_inj.mp h)).symm
              have h1 : ((r2.dropWhile isWs).dropWhile isTokChar).length
                  ≤ (r2.dropWhile isWs).length := (List.dropWhile_sublist _).length_le
              have h2 : (r2.takeWhile isWs).length + (r2.dropWhile isWs).length = r2.length := by
                have h0 := congrArg List.length (List.takeWhile_append_dropWhile isWs r2)
                rw [List.length_append] at h0
                exact h0
              have h3 : 1 ≤ (r2.takeWhile isWs).length := by
                cases hc : r2.takeWhile isWs with
                | nil => exact absurd hc hws
                | cons a b => simp
              have h4 : r2.length ≤ (consumeUre r0).length := by
                rw [hr2]
                exact dropDot_le _
              have h5 : (consumeUre r0).length ≤ r0.length := consumeUre_le r0
              rw [hrest]
              simp only [List.length_cons]
              omega
        · rw [if_neg hf] at h
          exact absurd h (by simp)
      · rw [if_neg hb] at h
        exact absurd h (by simp)

/-- `FIG_NUM_RE.finditer` over a text: non-overlapping scan, resuming after
each match with the match's last character as the new `\b` context; each
token is normalized as in `find_figure_refs`.  Fueled structural recursion
(each step consumes at least one character). -/
def findFigRefsF : Nat → Option Char → List Char → List (List Char)
  | 0, _, _ => []
  | fuel + 1, prev, l =>
      match l with
      | [] => []
      | c :: t =>
          match parseFigAt prev (c :: t) with
          | some (tok, rest) =>
              normToken tok :: findFigRefsF fuel (some (tok.getLastD ' ')) rest
          | none => findFigRefsF fuel (some c) t

/-- `find_figure_refs(text)`: normalized tokens of all `Figure <token>`
mentions, in order. -/
def find_figure_refs (text : List Char) : List (List Char) :=
  findFigRefsF text.length none text

/-- `FIG_NUM_RE.search(label)`: the first match's token anywhere in the
label (un-normalized). -/
def figLabelToken (prev : Option Char) : List Char → Option (List Char)
  | [] => none
  | c :: t =>
      match parseFigAt prev (c :: t) with
      | some (tok, _) => some tok
      | none => figLabelToken (some c) t

/-- `re.match(r'^(\d+)([A-Z]+)$', token)`: split into a digit run followed
by an uppercase-letter run spanning the whole token. -/
def splitNumAlpha (l : List Char) : Option (List Char × List Char) :=
  let num := l.takeWhile Char.isDigit
  let rest := l.dropWhile Char.isDigit
  if num ≠ [] ∧ rest ≠ [] ∧ rest.all (fun c => 'A' ≤ c && c ≤ 'Z') then some (num, rest)
  else none

/-- The index keys one figure object writes in `build_figure_index`:
either the normalized whole label (no `Figure <token>` inside it), or the
normalized token plus its relaxed dash alias (`2A` / `2-A`). -/
def figWriteKeys (fig : FigObj) : List String :=
  let label := pyStrip fig.label.toList
  if label = [] then []
  else
    match figLabelToken none label with
    | none => [(normToken label).asString]
    | some tokRaw =>
        let token := normToken tokRaw
        if '-' ∈ token then [token.asString, (token.filter (fun c => c ≠ '-')).asString]
        else
          match splitNumAlpha token with
          | some (num, alpha) => [token.asString, (num ++ '-' :: alpha).asString]
          | none => [token.asString]

/-- One figure's dict writes `idx[key] = fig`, collapsed pointwise: every
key in `figWriteKeys fig` now maps to `fig` (all the sequential writes of
the source store the same object). -/
def addFigToIdx (idx : String → Option FigObj) (fig : FigObj) : String → Option FigObj :=
  fun k => if k ∈ figWriteKeys fig then some fig else idx k

/-- `build_figure_index(article_obj)` over the article's figure list. -/
def build_figure_index (figs : List FigObj) : String → Option FigObj :=
  figs.foldl addFigToIdx (fun _ => none)

/-- `cand.get("id") or cand.get("label") or tok` (Python falsy chaining). -/
def pyOrKey (c : FigObj) (tok : List Char) : String :=
  match c.id with
  | some s => if s = "" then (if c.label = "" then tok.asString else c.label) else s
  | none => if c.label = "" then tok.asString else c.label

/-- The loop of `resolve_figures_from_text`: look each token up (with the
dash-stripped fallback), deduplicate by `id`-or-`label`-or-token, and
rebuild the output dicts. -/
def resolveAux (idx : String → Option FigObj) (seen : List String) :
    List (List Char) → List FigObj
  | [] => []
  | tok :: toks =>
      let cand := match idx tok.asString with
        | some c => some c
        | none => idx ((tok.filter (fun c => c ≠ '-')).asString)
      match cand with
      | none => resolveAux idx seen toks
      | some c =>
          let key := pyOrKey c tok
          if key ∈ seen then resolveAux idx seen toks
          else
            { id := c.id, label := c.label, caption := c.caption, tileshop := c.tileshop,
              images := c.images.map (fun im => ⟨im.url, im.filename⟩) } ::
              resolveAux idx (key :: seen) toks

/-- `resolve_figures_from_text(text, article_obj)`. -/
def resolve_figures_from_text (text : List Char) (figs : List FigObj) : List FigObj :=
  let refs := find_figure_refs text
  if refs = [] then []
  else resolveAux (build_figure_index figs) [] refs

/-! ### Pipeline data model (backend/rag/query_pipeline.py) -/

structure SourceItem where
  pmcid : String
  title : String
  url : String
deriving DecidableEq, Repr

structure FigureItem where
  pmcid : String
  label : Option String
  caption : Option String
  tileshop : Option String
  images : List ImageRef
deriving DecidableEq, Repr

structure QueryResult where
  question : String
  answer : String
  sources : List SourceItem
  figures : List FigureItem
  topic : String
deriving DecidableEq, Repr

/-- The result of `QueryReformer.reform`. -/
structure ReformedQueries where
  rule_expanded : List String
  llm_generated : List String
  hyde_document : Option String
deriving DecidableEq, Repr

/-- The four generation-service call sites of one request, each an
`Except`: `.ok` carries the call's return value (for the two reformer
calls, the value `generate_multi_queries_llm` / `generate_hyde_document`
would return after its own post-processing), `.error` a raised exception. -/
structure GenService where
  multi_queries : Except String (List String)
  hyde_document : Except String String
  answer_content : Except String String
  topic_content : Except String String

/-- `QueryReformer.reform` (query_reformer.py lines 80-93): rule-based
expansion is removed (always `[]`); the two LLM calls are wrapped in
`try/except`, failures map to `[]` / `None`. -/
def QueryReformer.reform (multiQs : Except String (List String)) (use_hyde : Bool)
    (hyde : Except String String) : ReformedQueries :=
  { rule_expanded := [],
    llm_generated := match multiQs with
      | .ok qs => qs
      | .error _ => [],
    hyde_document :=
      if use_hyde then
        match hyde with
        | .ok h => some h
        | .error _ => none
      else none }

/-- `f"https://www.ncbi.nlm.nih.gov/pmc/articles/{p}/"`. -/
def pmcArticleUrl (p : String) : String :=
  "https://www.ncbi.nlm.nih.gov/pmc/articles/" ++ p ++ "/"

/-- Python `a or b or ""` on two optional strings (falsy chaining). -/
def pyOr2 (a b : Option String) : String :=
  match a with
  | some s => if s = "" then b.getD "" else s
  | none => b.getD ""

/-- One chunk of `_build_context`:
`f"[{pmcid}] {title} - {sec}".strip() + "\n" + body + "\n"`. -/
def contextChunk (d : Document) : String :=
  let pmcid := d.metadata.pmcid.getD "PMCID?"
  let title := ((d.metadata.title.getD "").toList.take 160).asString
  let sec := pyOr2 d.metadata.section_title d.metadata.type
  let header := (pyStrip ("[" ++ pmcid ++ "] " ++ title ++ " - " ++ sec).toList).asString
  let body := (pyStrip d.page_content.toList).asString
  header ++ "\n" ++ body ++ "\n"

/-- The loop of `_build_context`: stop before the chunk that would push the
running character count past `max_chars`. -/
def buildContextAux (max_chars : Nat) : List Document → Nat → List String
  | [], _ => []
  | d :: ds, used =>
      let chunk := contextChunk d
      if max_chars < used + chunk.length then []
      else chunk :: buildContextAux max_chars ds (used + chunk.length)

def _build_context (docs : List Document) (max_chars : Nat) : String :=
  String.intercalate "\n---\n" (buildContextAux max_chars docs 0)

/-- The loop of `_format_sources`: one `SourceItem` per first occurrence of
a non-empty `pmcid`. -/
def formatSourcesAux (seen : List String) : List Document → List SourceItem
  | [] => []
  | d :: ds =>
      match d.metadata.pmcid with
      | none => formatSourcesAux seen ds
      | some p =>
          if p = "" ∨ p ∈ seen then formatSourcesAux seen ds
          else
            { pmcid := p,
              title := ((d.metadata.title.getD "").toList.take 200).asString,
              url := match d.metadata.url with
                | some u => if u = "" then pmcArticleUrl p else u
                | none => pmcArticleUrl p } :: formatSourcesAux (p :: seen) ds

def _format_sources (docs : List Document) : List SourceItem :=
  formatSourcesAux [] docs

/-- `f"{x}"` on a possibly missing value (Python renders `None`). -/
def pyStrOpt : Option String → String
  | some s => s
  | none => "None"

/-- `Path(u).name` for the plain file-URL shapes stored in the metadata:
the last `/`-separated component. -/
def pathName (u : String) : String :=
  ((u.toList.splitOn '/').getLastD []).asString

/-- The inner loop of `collect_figures_for_docs` over the figures resolved
from one text chunk: dedupe by `f"{pmcid}::{label or id}"` and emit
`{pmcid, **fig}`. -/
def addResolved (pmcid : String) (seen : List String) :
    List FigObj → List FigureItem × List String
  | [] => ([], seen)
  | f :: fs =>
      let key := pmcid ++ "::" ++ (if f.label = "" then pyStrOpt f.id else f.label)
      if key ∈ seen then addResolved pmcid seen fs
      else
        let p := addResolved pmcid (key :: seen) fs
        ({ pmcid := pmcid, label := some f.label, caption := f.caption,
            tileshop := f.tileshop, images := f.images } :: p.1, p.2)

/-- `collect_figures_for_docs` (query_figure_utils.py lines 154-201):
figure chunks contribute their own metadata; other chunks resolve
`Figure N` mentions against the article's figure objects (`metaFigs pmcid`
plays the role of `load_article_json(pmcid)["figures"]`). -/
def collectFigsAux (metaFigs : String → List FigObj) (seen : List String) :
    List Document → List FigureItem
  | [] => []
  | d :: ds =>
      match d.metadata.pmcid with
      | none => collectFigsAux metaFigs seen ds
      | some pmcid =>
          if pmcid = "" then collectFigsAux metaFigs seen ds
          else if (d.metadata.type.getD "").toLower = "figure" then
            let key := pmcid ++ "::" ++ pyStrOpt d.metadata.figure_label
            if key ∈ seen then collectFigsAux metaFigs seen ds
            else
              { pmcid := pmcid, label := d.metadata.figure_label,
                caption := d.metadata.figure_caption,
                tileshop := d.metadata.figure_tileshop,
                images := d.metadata.figure_image_urls.map (fun u => ⟨u, pathName u⟩) } ::
                collectFigsAux metaFigs (key :: seen) ds
          else
            let figs := metaFigs pmcid
            if figs = [] then collectFigsAux metaFigs seen ds
            else
              let resolved := resolve_figures_from_text d.page_content.toList figs
              let p := addResolved pmcid seen resolved
              p.1 ++ collectFigsAux metaFigs p.2 ds

def collect_figures_for_docs (metaFigs : String → List FigObj)
    (docs : List Document) : List FigureItem :=
  collectFigsAux metaFigs [] docs

/-! ### `RAGPipeline.run` (backend/rag/query_pipeline.py lines 137-228) -/

/-- The fixed degraded result of the empty-retrieval guard. -/
def unsureResult (question : String) : QueryResult :=
  { question := question,
    answer := "I'm unsure. I couldn't retrieve supporting evidence from the corpus.",
    sources := [], figures := [], topic := "" }

/-- The fixed substring markers of the topic step's unanswerable test. -/
def unansMarkers : List String :=
  ["i'm unsure", "i am unsure", "unsure", "not sure", "cannot answer", "couldn't retrieve"]

/-- Python `pat in s` for a non-empty `pat` (an occurrence exists iff
splitting on `pat` yields more than one part). -/
def containsSub (s pat : String) : Bool :=
  1 < (s.splitOn pat).length

/-- `(not answer) or any(m in answer.lower() for m in unans_markers)`. -/
def is_unanswerable (answer : String) : Bool :=
  answer = "" || unansMarkers.any (fun m => containsSub answer.toLower m)

/-- Step 7 of `run`: the topic.  The whole topic call and its
post-processing sit inside `try/except` with fallback `"General"`;
Python `str.split()` is split-on-whitespace dropping empty parts. -/
def computeTopic (topicResult : Except String String) (answer : String) : String :=
  if is_unanswerable answer = true then ""
  else
    match topicResult with
    | .error _ => "General"
    | .ok content =>
        let raw_topic := (pyStrip content.toList).asString
        let cleaned := String.intercalate " "
          ((raw_topic.split Char.isWhitespace).filter (fun t => t ≠ ""))
        let tokens := (cleaned.split Char.isWhitespace).filter (fun t => t ≠ "")
        let topic := if tokens = [] then "General"
          else String.intercalate " " (tokens.take 2)
        if topic = "" then "General" else topic

/-- Step 1 of `run`: the sub-queries and the HyDE text.  With reformation
enabled the sub-queries are `rule_expanded ++ llm_generated` — the bare
question itself is never added; without reformation they are
`[question]`. -/
def pipelineSubqueries (enable_reform use_hyde : Bool) (svc : GenService)
    (question : String) : List String × Option String :=
  if enable_reform then
    let rq := QueryReformer.reform svc.multi_queries use_hyde svc.hyde_document
    (rq.rule_expanded ++ rq.llm_generated, rq.hyde_document)
  else ([question], none)

/-- The combined query list (`queries`): sub-queries plus the HyDE text
when it is non-null and non-empty (`if hyde_text:`). -/
def pipelineQueries (enable_reform use_hyde : Bool) (svc : GenService)
    (question : String) : List String :=
  let sq := pipelineSubqueries enable_reform use_hyde svc question
  sq.1 ++ (match sq.2 with
    | some h => if h = "" then [] else [h]
    | none => [])

/-- Step 2: `self.retriever.batch(queries)`, one ranking per query. -/
def pipelineRankings (enable_reform use_hyde : Bool) (svc : GenService)
    (retrieve : String → List Document) (question : String) : List (List Document) :=
  (pipelineQueries enable_reform use_hyde svc question).map retrieve

/-- `RAGPipeline.run`.  `retrieve` is the per-query retrieval of the FAISS
store; `metaFigs` the figure-object side store.  The answer-synthesis call
(`self.llm.invoke(prompt)` at line 176) is *not* inside any `try` block, so
its failure propagates as `Except.error`; the guard and the topic step
never let a service failure escape. -/
def RAGPipeline.run (enable_reform use_hyde : Bool) (top_k_final : Nat)
    (svc : GenService) (retrieve : String → List Document)
    (metaFigs : String → List FigObj) (question : String) : Except String QueryResult :=
  let rankings := pipelineRankings enable_reform use_hyde svc retrieve question
  if rankings.all (fun r => r = []) then .ok (unsureResult question)
  else
    let fused := reciprocal_rank_fusion rankings 60 top_k_final
    let _context := _build_context fused 12000
    match svc.answer_content with
    | .error e => .error e
    | .ok content =>
        let answer := (pyStrip content.toList).asString
        let figures := collect_figures_for_docs metaFigs fused
        let sources := _format_sources fused
        let topic := computeTopic svc.topic_content answer
        .ok { question := question, answer := answer, sources := sources,
              figures := figures, topic := topic }

/-- `run_query` returns `asdict`-converted fields of `RAGPipeline.run`'s
result — the same data. -/
def run_query (enable_reform use_hyde : Bool) (top_k_final : Nat)
    (svc : GenService) (retrieve : String → List Document)
    (metaFigs : String → List FigObj) (question : String) : Except String QueryResult :=
  RAGPipeline.run enable_reform use_hyde top_k_final svc retrieve metaFigs question

/-! ### `NASARAGService` (backend/services/rag_service.py) -/

/-- The dict returned by `get_detailed_response`; `topic` is `none` when
the dict carries no `"topic"` key (both degraded paths omit it). -/
structure ServiceResponse where
  question : String
  answer : String
  sources : List SourceItem
  figures : List FigureItem
  topic : Option String
deriving DecidableEq, Repr

/-- `NASARAGService.search`: unavailable index → `""`; any exception from
`run_query` is caught and mapped to `""`; otherwise the answer field. -/
def NASARAGService.search (available : Bool)
    (runResult : Except String QueryResult) : String :=
  if available = false then ""
  else
    match runResult with
    | .error _ => ""
    | .ok r => r.answer

/-- `NASARAGService.get_detailed_response` (rag_service.py lines 145-184):
unavailable index → empty answer, empty sources/figures, no topic key; an
exception from `run_query` → error-message answer, empty sources/figures,
no topic key; otherwise the pipeline's result dict. -/
def NASARAGService.get_detailed_response (available : Bool) (question : String)
    (runResult : Except String QueryResult) : ServiceResponse :=
  if available = false then
    { question := question, answer := "", sources := [], figures := [], topic := none }
  else
    match runResult with
    | .error e =>
        { question := question,
          answer := "An error occurred while processing your question: " ++ e,
          sources := [], figures := [], topic := none }
    | .ok r =>
        { question := r.question, answer := r.answer, sources := r.sources,
          figures := r.figures, topic := some r.topic }

/-! ### C3, C4, C5: failure behaviour of the pipeline entry point -/

/-- C3 counterexample: with a healthy index and a ranking to fuse, a
generation-service failure during answer synthesis escapes
`RAGPipeline.run` as a raised fault (`Except.error`), not as a degraded
`QueryResult` — the `llm.invoke` call of step 5 is outside every
`try` block. -/
theorem answer_failure_escapes_run :
    RAGPipeline.run false false 6
        ⟨.ok [], .ok "", .error "generation service down", .ok "Topic"⟩
        (fun _ => [docA]) (fun _ => []) "What is microgravity?"
      = .error "generation service down" := rfl

/-- C3 (amended): a generation-service failure during answer synthesis
propagates out of `RAGPipeline.run` / `run_query` as a raised fault
whenever retrieval produced any ranking; it is the `NASARAGService`
wrapper that catches it: `search` maps it to the empty answer string and
`get_detailed_response` to an error-message answer with empty sources and
figures and no topic key. -/
theorem answer_failure_caught_by_service (er uh : Bool) (tk : Nat) (svc : GenService)
    (retrieve : String → List Document) (metaFigs : String → List FigObj)
    (q msg : String) (hans : svc.answer_content = .error msg)
    (hne : (pipelineRankings er uh svc retrieve q).all (fun r => r = []) = false) :
    RAGPipeline.run er uh tk svc retrieve metaFigs q = .error msg
    ∧ NASARAGService.search true (RAGPipeline.run er uh tk svc retrieve metaFigs q) = ""
    ∧ (NASARAGService.get_detailed_response true q
        (RAGPipeline.run er uh tk svc retrieve metaFigs q)).answer
      = "An error occurred while processing your question: " ++ msg
    ∧ (NASARAGService.get_detailed_response true q
        (RAGPipeline.run er uh tk svc retrieve metaFigs q)).sources = []
    ∧ (NASARAGService.get_detailed_response true q
        (RAGPipeline.run er uh tk svc retrieve metaFigs q)).figures = []
    ∧ (NASARAGService.get_detailed_response true q
        (RAGPipeline.run er uh tk svc retrieve metaFigs q)).topic = none := by
  have h1 : RAGPipeline.run er uh tk svc retrieve metaFigs q = .error msg := by
    rw [RAGPipeline.run]
    rw [if_neg (by rw [hne]; exact Bool.false_ne_true)]
    rw [hans]
  refine ⟨h1, ?_, ?_, ?_, ?_, ?_⟩ <;> rw [h1] <;>
    simp [NASARAGService.search, NASARAGService.get_detailed_response]

/-- Witness for `answer_failure_caught_by_service` at a concrete request. -/
theorem answer_failure_caught_by_service_witness :
    (⟨.ok ["microgravity bone loss"], .ok "hypothetical abstract",
        .error "llm down", .ok "Topic"⟩ : GenService).answer_content = .error "llm down"
    ∧ (pipelineRankings true true
        ⟨.ok ["microgravity bone loss"], .ok "hypothetical abstract",
          .error "llm down", .ok "Topic"⟩
        (fun _ => [docA]) "q").all (fun r => r = []) = false
    ∧ NASARAGService.search true (RAGPipeline.run true true 6
        ⟨.ok ["microgravity bone loss"], .ok "hypothetical abstract",
          .error "llm down", .ok "Topic"⟩
        (fun _ => [docA]) (fun _ => []) "q") = "" := by
  refine ⟨rfl, by decide, ?_⟩
  exact (answer_failure_caught_by_service true true 6
    ⟨.ok ["microgravity bone loss"], .ok "hypothetical abstract",
      .error "llm down", .ok "Topic"⟩
    (fun _ => [docA]) (fun _ => []) "q" "llm down" rfl (by decide)).2.1

/-- C4 (code bug): with reformation enabled, the sub-query list is
`rule_expanded ++ llm_generated` and the bare question is never added.
When both reformer calls fail the query list is therefore empty, retrieval
runs over zero queries, and the empty-retrieval guard returns the unsure
result — even though the retriever would have returned evidence for the
bare question itself. -/
theorem reform_failure_drops_bare_question :
    pipelineQueries true true
        ⟨.error "expansion failed", .error "hyde failed", .ok "unused", .ok "unused"⟩
        "What is microgravity?" = []
    ∧ RAGPipeline.run true true 6
        ⟨.error "expansion failed", .error "hyde failed", .ok "unused", .ok "unused"⟩
        (fun _ => [docA]) (fun _ => []) "What is microgravity?"
      = .ok (unsureResult "What is microgravity?")
    ∧ (fun _ => [docA] : String → List Document) "What is microgravity?" ≠ [] := by
  refine ⟨rfl, rfl, by simp⟩

/-- C5 counterexample: when the index is marked unavailable the service
returns an *empty* answer string (so the chat layer falls back to its
non-grounded mode), not the fixed unsure/insufficient-evidence message the
claim requires; the dict also carries no topic key at all. -/
theorem index_unavailable_answer_is_empty :
    (NASARAGService.get_detailed_response false "q" (.error "ignored")).answer = ""
    ∧ (NASARAGService.get_detailed_response false "q" (.error "ignored")).answer
        ≠ (unsureResult "q").answer
    ∧ (NASARAGService.get_detailed_response false "q" (.error "ignored")).topic = none := by
  refine ⟨rfl, by decide, rfl⟩

/-- C5 (amended): when every sub-query ranking is empty, `RAGPipeline.run`
returns the fixed unsure-message `QueryResult` with empty sources, empty
figures and empty topic, independently of the answer and topic services
(no further generation call is made for the request); when the index is
marked unavailable, `get_detailed_response` instead returns a degraded
dict with an *empty* answer string, empty sources/figures and no topic
key, for every question, independently of any pipeline result. -/
theorem empty_retrieval_and_unavailable_index_degrade (er uh : Bool) (tk : Nat)
    (mq : Except String (List String)) (hd ans top : Except String String)
    (retrieve : String → List Document) (metaFigs : String → List FigObj) (q : String)
    (hempty : (pipelineRankings er uh ⟨mq, hd, ans, top⟩ retrieve q).all
        (fun r => r = []) = true) :
    RAGPipeline.run er uh tk ⟨mq, hd, ans, top⟩ retrieve metaFigs q
        = .ok (unsureResult q)
    ∧ (unsureResult q).answer
        = "I'm unsure. I couldn't retrieve supporting evidence from the corpus."
    ∧ (unsureResult q).sources = [] ∧ (unsureResult q).figures = []
    ∧ (unsureResult q).topic = ""
    ∧ (∀ (q' : String) (runRes : Except String QueryResult),
        NASARAGService.get_detailed_response false q' runRes
          = ⟨q', "", [], [], none⟩) := by
  refine ⟨?_, rfl, rfl, rfl, rfl, ?_⟩
  · rw [RAGPipeline.run]
    rw [if_pos hempty]
  · intro q' runRes
    simp [NASARAGService.get_detailed_response]

/-- Witness for `empty_retrieval_and_unavailable_index_degrade` with a
retriever that finds nothing for any query. -/
theorem empty_retrieval_degrade_witness :
    (pipelineRankings true true
        ⟨.ok ["q1", "q2"], .ok "hyde doc", .ok "answer", .ok "Topic"⟩
        (fun _ => []) "q").all (fun r => r = []) = true
    ∧ RAGPipeline.run true true 6
        ⟨.ok ["q1", "q2"], .ok "hyde doc", .ok "answer", .ok "Topic"⟩
        (fun _ => []) (fun _ => []) "q" = .ok (unsureResult "q") := by
  refine ⟨by decide, ?_⟩
  exact (empty_retrieval_and_unavailable_index_degrade true true 6
    (.ok ["q1", "q2"]) (.ok "hyde doc") (.ok "answer") (.ok "Topic")
    (fun _ => []) (fun _ => []) "q" (by decide)).1

/-! ### C10: figure label aliasing -/

theorem imageRefs_map_id (l : List ImageRef) :
    l.map (fun im => (⟨im.url, im.filename⟩ : ImageRef)) = l := by
  induction l with
  | nil => rfl
  | cons im t ih => simp [ih]

theorem foldl_addFigToIdx_not_written (figs : List FigObj)
    (idx : String → Option FigObj) (k : String)
    (h : ∀ g ∈ figs, k ∉ figWriteKeys g) :
    figs.foldl addFigToIdx idx k = idx k := by
  induction figs generalizing idx with
  | nil => rfl
  | cons g t ih =>
      rw [List.foldl_cons, ih (addFigToIdx idx g)
        (fun x hx => h x (List.mem_cons_of_mem g hx))]
      rw [addFigToIdx, if_neg (h g (List.mem_cons_self g t))]

theorem figWriteKeys_figure2A (fig : FigObj) (hlab : fig.label = "Figure 2A") :
    figWriteKeys fig = ["2A", "2-A"] := by
  rw [figWriteKeys, hlab]
  rfl

/-- C10 counterexample: an article whose figure records are labeled
`"Figure 2A"` and `"Figure 2-A"` (in that order) *does* include one
labeled `"Figure 2A"`, but the index maps both keys `"2A"` and `"2-A"` to
the *later* record — the dash alias of the second record overwrites both
entries of the first — and a textual mention of `"Figure 2A"` resolves to
the later record, not to the record so labeled. -/
theorem figure_index_overwritten_by_later_record :
    build_figure_index
        [⟨some "f1", "Figure 2A", none, none, []⟩,
          ⟨some "f2", "Figure 2-A", none, none, []⟩] "2A"
      = some ⟨some "f2", "Figure 2-A", none, none, []⟩
    ∧ (⟨some "f2", "Figure 2-A", none, none, []⟩ : FigObj)
        ≠ ⟨some "f1", "Figure 2A", none, none, []⟩
    ∧ resolve_figures_from_text ("Figure 2A").toList
        [⟨some "f1", "Figure 2A", none, none, []⟩,
          ⟨some "f2", "Figure 2-A", none, none, []⟩]
      = [⟨some "f2", "Figure 2-A", none, none, []⟩] := by
  refine ⟨rfl, by decide, rfl⟩

/-- C10 (amended): when no *later* figure record of the article writes the
keys `"2A"` or `"2-A"`, a figure record labeled `"Figure 2A"` is indexed
under both keys, and a textual mention of `"Figure 2A"` or `"Figure 2-A"`
in a non-figure record's text resolves to that same figure. -/
theorem figure_2A_alias_resolution (pre post : List FigObj) (fig : FigObj)
    (hlab : fig.label = "Figure 2A")
    (hpost : ∀ g ∈ post, "2A" ∉ figWriteKeys g ∧ "2-A" ∉ figWriteKeys g) :
    build_figure_index (pre ++ fig :: post) "2A" = some fig
    ∧ build_figure_index (pre ++ fig :: post) "2-A" = some fig
    ∧ resolve_figures_from_text ("Figure 2A").toList (pre ++ fig :: post) = [fig]
    ∧ resolve_figures_from_text ("Figure 2-A").toList (pre ++ fig :: post) = [fig] := by
  have hkeys : figWriteKeys fig = ["2A", "2-A"] := figWriteKeys_figure2A fig hlab
  have hidx : ∀ k, k ∈ figWriteKeys fig →
      build_figure_index (pre ++ fig :: post) k = some fig := by
    intro k hk
    rw [build_figure_index, List.foldl_append, List.foldl_cons]
    rw [foldl_addFigToIdx_not_written post _ k ?hpost2]
    · rw [addFigToIdx, if_pos hk]
    · intro g hg
      rw [hkeys] at hk
      rcases List.mem_cons.mp hk with rfl | hk2
      · exact (hpost g hg).1
      · rcases List.mem_cons.mp hk2 with rfl | hk3
        · exact (hpost g hg).2
        · exact absurd hk3 (List.not_mem_nil k)
  have h2A : build_figure_index (pre ++ fig :: post) "2A" = some fig :=
    hidx "2A" (by rw [hkeys]; simp)
  have h2dA : build_figure_index (pre ++ fig :: post) "2-A" = some fig :=
    hidx "2-A" (by rw [hkeys]; simp)
  refine ⟨h2A, h2dA, ?_, ?_⟩
  · have href : find_figure_refs ("Figure 2A").toList = [['2', 'A']] := rfl
    rw [resolve_figures_from_text, href, if_neg (by simp)]
    rw [resolveAux]
    have hstr : (['2', 'A'] : List Char).asString = "2A" := rfl
    rw [hstr, h2A]
    dsimp only
    rw [if_neg (List.not_mem_nil _)]
    rw [imageRefs_map_id]
    rfl
  · have href : find_figure_refs ("Figure 2-A").toList = [['2', '-', 'A']] := rfl
    rw [resolve_figures_from_text, href, if_neg (by simp)]
    rw [resolveAux]
    have hstr : (['2', '-', 'A'] : List Char).asString = "2-A" := rfl
    rw [hstr, h2dA]
    dsimp only
    rw [if_neg (List.not_mem_nil _)]
    rw [imageRefs_map_id]
    rfl

/-- Witness for `figure_2A_alias_resolution` on a one-figure article. -/
theorem figure_2A_alias_resolution_witness :
    ((⟨some "f1", "Figure 2A", some "caption", none, []⟩ : FigObj).label = "Figure 2A")
    ∧ build_figure_index [⟨some "f1", "Figure 2A", some "caption", none, []⟩] "2A"
        = some ⟨some "f1", "Figure 2A", some "caption", none, []⟩
    ∧ resolve_figures_from_text ("Figure 2-A").toList
        [⟨some "f1", "Figure 2A", some "caption", none, []⟩]
      = [⟨some "f1", "Figure 2A", some "caption", none, []⟩] := by
  have h := figure_2A_alias_resolution [] []
    ⟨some "f1", "Figure 2A", some "caption", none, []⟩ rfl
    (fun g hg => absurd hg (List.not_mem_nil g))
  exact ⟨rfl, h.1, h.2.2.2⟩
